import Mathlib

/-!
Verification development for the `auto-dev-plugin` hook scripts
(`classify-prompt.py`, `log-prompt.py`, `activity_logger.py`,
`analyze_activity.py`, `test-gate.py`, `smart-stop.py`).

Python strings are modelled as `List Char` (`Str`).  The fixed regular
expressions used by the scripts only employ character classes, literals,
alternation, optional groups, bounded/unbounded repetition of a character
class, word boundaries and the `^`/`$` anchors, so they are embedded as an
explicit AST (`RE`) together with a backtracking matcher that mirrors
Python's leftmost, greedy, first-match semantics for exactly these
constructs.  Character classes are modelled over ASCII (the scripts are
only ever run on ASCII-ish prompt text; Python's `\s`, `\d`, `\w` extend
them to Unicode, which is out of scope of this embedding).
-/

set_option maxHeartbeats 4000000
set_option maxRecDepth 10000

namespace CC

abbrev Str := List Char

/-- Convert a Lean string literal to the `List Char` model of Python strings. -/
def txt (s : String) : Str := s.data

/-- Python `str.isspace` characters used by `str.strip` and the regex class `\s`
(ASCII part: space, tab, newline, carriage return, vertical tab, form feed). -/
def wsB (c : Char) : Bool :=
  c = ' ' || c = '\t' || c = '\n' || c = '\r' || c = Char.ofNat 11 || c = Char.ofNat 12

/-- Remove trailing whitespace characters (the right half of `str.strip`). -/
def dropTrail : Str → Str
  | [] => []
  | c :: cs =>
    let r := dropTrail cs
    if r.isEmpty then (if wsB c then [] else [c]) else c :: r

/-- Python `str.strip()`. -/
def pyStrip (s : Str) : Str := dropTrail (s.dropWhile wsB)

/-- Python `str.lower()` (ASCII). -/
def pyLower (s : Str) : Str := s.map Char.toLower

/-- Python `str.split('\n')` (keeps empty pieces, always non-empty result). -/
def splitNl : Str → List Str
  | [] => [[]]
  | c :: cs =>
    let r := splitNl cs
    if c = '\n' then [] :: r
    else
      match r with
      | [] => [[c]]
      | p :: ps => (c :: p) :: ps

/-- Python `sep.join(pieces)`. -/
def joinSep (sep : Str) : List Str → Str
  | [] => []
  | [l] => l
  | l :: l2 :: ls => l ++ sep ++ joinSep sep (l2 :: ls)

/-- Python `' '.join(pieces)`. -/
def joinSpace : List Str → Str := joinSep [' ']

/-- Decimal digit to character. -/
def digitChar (d : Nat) : Char :=
  if d = 0 then '0' else if d = 1 then '1' else if d = 2 then '2' else if d = 3 then '3'
  else if d = 4 then '4' else if d = 5 then '5' else if d = 6 then '6' else if d = 7 then '7'
  else if d = 8 then '8' else '9'

/-- Decimal digits of a natural number (fuel-based so that it is structural). -/
def natDigitsAux : Nat → Nat → Str
  | 0, _ => []
  | fuel + 1, n => if n < 10 then [digitChar n] else natDigitsAux fuel (n / 10) ++ [digitChar (n % 10)]

/-- Python `str(n)` for a natural number. -/
def natChars (n : Nat) : Str := natDigitsAux (n + 1) n

/-! ## A tiny regex engine

`RE` covers exactly the constructs appearing in the hook scripts' patterns.
`matchFirst` is a continuation-passing backtracking matcher; alternatives are
tried left to right and repetitions greedily, so the first `some` produced
corresponds to the match Python's `re` engine would pick for these patterns
(none of them contains lazy quantifiers, backreferences, or a quantified
group whose pieces could trade characters with their context). -/

inductive RE where
  | eps
  | bos
  | eos
  | wordB
  | cls (p : Char → Bool)
  | concat (a b : RE)
  | alt (a b : RE)
  | opt (a : RE)
  | clsRep (p : Char → Bool) (lo : Nat) (hi : Option Nat)

/-- Left-biased choice on `Option` (explicit so proofs can unfold it). -/
def oOr {α : Type} : Option α → Option α → Option α
  | some v, _ => some v
  | none, y => y

/-- Last element of a list (`l.reverse.head?`, kept abstract for clean lemmas). -/
def lastQ {α : Type} (l : List α) : Option α := l.reverse.head?

/-- The character that precedes the current position after consuming `consumed`. -/
def newPrev (prev : Option Char) (consumed : Str) : Option Char :=
  match lastQ consumed with
  | some c => some c
  | none => prev

/-- Length of the maximal prefix of `s` whose characters satisfy `p`. -/
def countClass (p : Char → Bool) : Str → Nat
  | [] => 0
  | c :: cs => if p c then countClass p cs + 1 else 0

/-- Python regex `\w` (ASCII part). -/
def isWordChar (c : Char) : Bool :=
  ('a' ≤ c.toLower && c.toLower ≤ 'z') || c.isDigit || c = '_'

def isWordOpt : Option Char → Bool
  | some c => isWordChar c
  | none => false

def headWord : Str → Bool
  | [] => false
  | c :: _ => isWordChar c

/-- Greedy repetition: try consuming `n` characters, then `n-1`, …, down to `lo`.
The caller guarantees `n` is at most the length of the class run at the front of `s`. -/
def tryRep {α : Type} (prev : Option Char) (s : Str) (k : Option Char → Str → Option α)
    (lo : Nat) : Nat → Option α
  | 0 => if lo = 0 then k prev s else none
  | n + 1 =>
    oOr (if lo ≤ n + 1 then k (newPrev prev (s.take (n + 1))) (s.drop (n + 1)) else none)
      (tryRep prev s k lo n)

/-- Backtracking matcher in continuation-passing style.  `prev` is the character
just before the current position (`none` at the start of the haystack), used by
`^` and `\b`. -/
def matchFirst {α : Type} : RE → Option Char → Str → (Option Char → Str → Option α) → Option α
  | .eps, prev, s, k => k prev s
  | .bos, prev, s, k => if prev.isNone then k prev s else none
  | .eos, prev, s, k => if s = [] || s = ['\n'] then k prev s else none
  | .wordB, prev, s, k => if isWordOpt prev != headWord s then k prev s else none
  | .cls p, _, s, k =>
    match s with
    | [] => none
    | c :: cs => if p c then k (some c) cs else none
  | .concat a b, prev, s, k => matchFirst a prev s (fun p2 s2 => matchFirst b p2 s2 k)
  | .alt a b, prev, s, k => oOr (matchFirst a prev s k) (matchFirst b prev s k)
  | .opt a, prev, s, k => oOr (matchFirst a prev s k) (k prev s)
  | .clsRep p lo hi, prev, s, k =>
    let run := countClass p s
    let m := match hi with | some h => min run h | none => run
    if lo ≤ m then tryRep prev s k lo m else none

/-- First match of `r` at the current position: the threaded `prev` and the
remaining input after the matched span. -/
def matchRem (r : RE) (prev : Option Char) (s : Str) : Option (Option Char × Str) :=
  matchFirst r prev s (fun p2 s2 => some (p2, s2))

/-- Does `r` match somewhere at or after the current position (`re.search`)? -/
def searchFrom (r : RE) : Option Char → Str → Bool
  | prev, [] => (matchRem r prev []).isSome
  | prev, c :: cs => (matchRem r prev (c :: cs)).isSome || searchFrom r (some c) cs

/-- Python `re.search(r, s) is not None`. -/
def reSearchB (r : RE) (s : Str) : Bool := searchFrom r none s

/-- Python `re.match(r, s) is not None` (anchored at the start). -/
def reMatchStart (r : RE) (s : Str) : Bool := (matchRem r none s).isSome

/-- Python `re.sub(r, '', s, count=1)`: remove the leftmost match, if any. -/
def subFirstFrom (r : RE) : Option Char → Str → Str
  | prev, [] =>
    match matchRem r prev [] with
    | some (_, rest) => rest
    | none => []
  | prev, c :: cs =>
    match matchRem r prev (c :: cs) with
    | some (_, rest) => rest
    | none => c :: subFirstFrom r (some c) cs

def subFirst (r : RE) (s : Str) : Str := subFirstFrom r none s

/-- Worker for `re.split`: scan left to right, cutting a part at every match.
`acc` is the current part, reversed.  Fuel only guards termination; it starts
at `length + 1` and every step consumes at least one unit.  (Python would also
try a final zero-width match at the very end of the string; the separator
patterns used here cannot match the empty string, so the behaviour agrees.) -/
def splitGo (r : RE) : Nat → Option Char → Str → Str → List Str
  | 0, _, acc, s => [acc.reverse ++ s]
  | _ + 1, _, acc, [] => [acc.reverse]
  | fuel + 1, prev, acc, c :: cs =>
    match matchRem r prev (c :: cs) with
    | some (p2, rest) =>
      if rest.length < cs.length + 1 then
        acc.reverse :: splitGo r fuel p2 [] rest
      else
        splitGo r fuel (some c) (c :: acc) cs
    | none => splitGo r fuel (some c) (c :: acc) cs

/-- Python `re.split(r, s)` (for the non-capturing separator patterns used here). -/
def pySplit (r : RE) (s : Str) : List Str :=
  splitGo r (s.length + 1) none [] s

end CC

namespace CC

/-! ## The concrete patterns of classify-prompt.py

All searches in the script run with `re.IGNORECASE` on a lowercased prompt,
so literal letters are matched case-insensitively. -/

/-- A single literal character, matched exactly. -/
def chrE (c : Char) : RE := RE.cls (fun d => d = c)

/-- A single literal (lowercase) character, matched case-insensitively. -/
def chrCI (c : Char) : RE := RE.cls (fun d => d.toLower = c)

/-- A literal word, matched case-insensitively. -/
def litCI (w : String) : RE := (w.data.map chrCI).foldr RE.concat RE.eps

/-- Alternation of a list, tried left to right (like `(x|y|z)` in `re`). -/
def altList : List RE → RE
  | [] => RE.cls (fun _ => false)
  | [r] => r
  | r :: r2 :: rs => RE.alt r (altList (r2 :: rs))

/-- Alternation of literal words. -/
def altW (ws : List String) : RE := altList (ws.map litCI)

/-- Regex `.` (any character but newline; `re.DOTALL` is not used). -/
def dotCls (c : Char) : Bool := c != '\n'

def wsStar : RE := RE.clsRep wsB 0 none
def wsPlus : RE := RE.clsRep wsB 1 none
def dotStar : RE := RE.clsRep dotCls 0 none

/-- Regex `.{0,hi}`. -/
def dotRep (hi : Nat) : RE := RE.clsRep dotCls 0 (some hi)

def wB : RE := RE.wordB

/-- The apostrophe character (used by the pattern for `let's`). -/
def apos : Char := Char.ofNat 39

/-- Regex `[a-z]` under `re.IGNORECASE`. -/
def alphaCI (c : Char) : Bool := 'a' ≤ c.toLower && c.toLower ≤ 'z'

/-- `QUICK_PATTERNS` of classify-prompt.py, in order. -/
def QUICK_PATTERNS : List RE :=
  [ RE.concat RE.bos (RE.concat
      (altW ["how", "what", "why", "when", "where", "who", "can you", "could you",
             "do you", "does", "is", "are"])
      (RE.concat wB (RE.concat dotStar (RE.concat (chrE '?') RE.eos)))),
    RE.concat wB (RE.concat
      (altW ["explain", "describe", "tell me about", "what is", "what are"]) wB),
    RE.concat wB (RE.concat
      (altW ["commit", "push", "pull", "merge", "readme", "doc", "documentation"]) wB),
    RE.concat RE.bos (RE.concat
      (altW ["yes", "no", "ok", "thanks", "thank you", "great", "good", "perfect",
             "sure", "got it"]) wB),
    RE.concat RE.bos (RE.concat
      (altW ["show", "list", "find", "search", "grep", "where is"]) wB),
    RE.concat RE.bos (RE.concat (altW ["hello", "hi", "hey", "greetings"]) wB) ]

/-- `CODING_PATTERNS` of classify-prompt.py, in order. -/
def CODING_PATTERNS : List RE :=
  [ RE.concat wB (RE.concat (litCI "subagent") wB),
    RE.concat wB (RE.concat
      (altW ["implement", "create", "build", "add", "fix", "refactor", "update",
             "change", "modify", "write", "delete", "remove", "rename", "migrate",
             "upgrade"])
      (RE.concat wB (RE.concat (dotRep 30) (RE.concat wB (RE.concat
        (altW ["function", "class", "component", "feature", "bug", "code", "file",
               "module", "test", "api", "endpoint", "page", "hook", "system",
               "logic", "method", "service", "handler", "route", "controller",
               "model", "schema", "validation", "form", "button", "modal",
               "dialog", "login", "auth", "authentication", "database", "query",
               "table", "view", "style", "css", "layout", "ui", "interface",
               "type", "types", "config", "setting"]) wB))))),
    RE.concat wB (RE.concat (altW ["develop", "program", "code up", "build out"]) wB),
    RE.concat wB (RE.concat (altW ["new feature", "add feature", "implement feature"]) wB),
    RE.concat wB (RE.concat (altW ["fix the", "fix this", "debug", "resolve"])
      (RE.concat wB (RE.concat (dotRep 20) (RE.concat wB (RE.concat
        (altW ["bug", "error", "issue", "problem"]) wB))))),
    RE.concat wB (RE.concat (altW ["delete", "remove"])
      (RE.concat wB (RE.concat (dotRep 20) (RE.concat wB (RE.concat
        (altW ["old", "deprecated", "unused"]) wB))))),
    RE.concat wB (RE.concat (altW ["rename", "move"])
      (RE.concat wB (RE.concat (dotRep 20) (RE.concat wB (RE.concat
        (altW ["to", "into", "from"]) wB))))),
    RE.concat RE.bos (RE.concat
      (altW ["implement", "create", "build", "add", "fix", "refactor"]) wB),
    RE.concat wB (RE.concat (litCI "let") (RE.concat (RE.opt (chrE apos))
      (RE.concat (chrCI 's') (RE.concat wsPlus (RE.concat
        (altW ["add", "fix", "update", "change", "modify", "sort", "implement",
               "create", "refactor"]) wB))))),
    RE.concat wB (RE.concat
      (altW ["error", "issue", "bug", "problem", "broken", "not working"])
      (RE.concat wB (RE.concat (dotRep 50) (RE.concat wB (RE.concat
        (altW ["fix", "solve", "resolve", "debug"]) wB))))),
    RE.concat wB (RE.concat (altW ["fix", "solve", "resolve", "debug"])
      (RE.concat wB (RE.concat (dotRep 50) (RE.concat wB (RE.concat
        (altW ["error", "issue", "bug", "problem", "broken", "not working"]) wB))))),
    RE.concat wB (RE.concat (litCI "please") (RE.concat wsPlus (RE.concat
      (altW ["test", "validate", "verify"]) wB))),
    RE.concat wB (RE.concat (altW ["test", "validate", "verify", "check"])
      (RE.concat wB (RE.concat (dotRep 20) (RE.concat wB (RE.concat
        (altW ["it", "this", "that", "the", "code", "changes"]) wB))))),
    RE.concat wB (RE.concat (altW ["run", "execute"]) (RE.concat wsPlus
      (RE.concat (RE.opt (RE.concat (litCI "the") wsPlus)) (RE.concat
        (RE.alt (RE.concat (litCI "test") (RE.opt (chrCI 's'))) (litCI "validation")) wB)))),
    RE.concat wB (RE.concat (litCI "check") (RE.concat wsPlus (RE.concat (litCI "it")
      (RE.concat wsPlus (RE.concat (litCI "out") wB))))),
    RE.concat wB (RE.concat (litCI "make") (RE.concat wsPlus (RE.concat (litCI "sure")
      (RE.concat wsPlus (RE.concat (altW ["it", "this", "that"]) (RE.concat wsPlus
        (RE.concat (RE.alt (RE.concat (litCI "work") (RE.opt (chrCI 's')))
          (RE.concat (litCI "passe") (RE.opt (chrCI 's')))) wB))))))) ]

/-- Shape shared by every delimiter pattern: `^\s*` body `\s+`. -/
def mkDelim (body : RE) : RE :=
  RE.concat (RE.concat (RE.concat RE.bos wsStar) body) wsPlus

/-- `EXPLICIT_DELIMITERS` of classify-prompt.py, in order. -/
def EXPLICIT_DELIMITERS : List RE :=
  [ mkDelim (RE.concat (RE.clsRep Char.isDigit 1 none) (chrE '.')),
    mkDelim (RE.concat (RE.clsRep Char.isDigit 1 none) (chrE ')')),
    mkDelim (RE.concat (RE.cls alphaCI) (chrE '.')),
    mkDelim (RE.concat (RE.cls alphaCI) (chrE ')')),
    mkDelim (chrE '-'),
    mkDelim (chrE '*'),
    mkDelim (chrE (Char.ofNat 8226)) ]

/-- `IMPLICIT_SEPARATORS` of classify-prompt.py, in order. -/
def IMPLICIT_SEPARATORS : List RE :=
  [ RE.concat (RE.concat (RE.concat (chrE '.') wsPlus)
      (altW ["then", "also", "next", "after that", "finally", "lastly"])) wsPlus,
    RE.concat (RE.concat wsPlus (altW ["and also", "and then", ", then", "; also"])) wsPlus ]

/-! ## split_requests / classify_single / classify_prompt -/

def CODING_TASK : Str := txt "CODING_TASK"
def QUICK_QUESTION : Str := txt "QUICK_QUESTION"

/-- Does a (stripped) line start with one of the explicit delimiters? -/
def isDelimLine (ls : Str) : Bool := EXPLICIT_DELIMITERS.any (fun p => reMatchStart p ls)

/-- Remove delimiter prefixes: one `re.sub(p, '', line, count=1)` per pattern, in order. -/
def cleanDelims (ls : Str) : Str := EXPLICIT_DELIMITERS.foldl (fun s p => subFirst p s) ls

/-- State of the line loop in `split_requests`. -/
structure SplitState where
  requests : List Str
  current : List Str
  hasDelims : Bool

/-- Append the pending request, if any (`if current_request: requests.append(...)`). -/
def flushCurrent (st : SplitState) : List Str :=
  if st.current.isEmpty then st.requests else st.requests ++ [joinSpace st.current]

/-- One iteration of the `for line in lines` loop of `split_requests`. -/
def splitStep (st : SplitState) (line : Str) : SplitState :=
  let ls := pyStrip line
  if ls.isEmpty then st
  else if isDelimLine ls then
    { requests := flushCurrent st, current := [pyStrip (cleanDelims ls)], hasDelims := true }
  else
    { st with current := st.current ++ [ls] }

/-- The implicit-separator loop: first pattern that splits the text wins. -/
def tryImplicit : List RE → Str → Option (List Str)
  | [], _ => none
  | p :: ps, t =>
    let parts := pySplit p t
    if parts.length > 1 then some ((parts.map pyStrip).filter (fun x => !x.isEmpty))
    else tryImplicit ps t

/-- `split_requests` of classify-prompt.py. -/
def split_requests (prompt : Str) : List Str :=
  let lines := splitNl (pyStrip prompt)
  let st := lines.foldl splitStep ⟨[], [], false⟩
  let requests := flushCurrent st
  if st.hasDelims && requests.length > 1 then
    requests.filter (fun r => !(pyStrip r).isEmpty)
  else
    let fullText := joinSpace lines
    match tryImplicit IMPLICIT_SEPARATORS fullText with
    | some parts => parts
    | none => [pyStrip prompt]

/-- `classify_single` of classify-prompt.py. -/
def classify_single (prompt : Str) : Str :=
  let prompt_lower := pyStrip (pyLower prompt)
  if CODING_PATTERNS.any (fun p => reSearchB p prompt_lower) then CODING_TASK
  else if QUICK_PATTERNS.any (fun p => reSearchB p prompt_lower) then QUICK_QUESTION
  else QUICK_QUESTION

/-- `classify_prompt` of classify-prompt.py. -/
def classify_prompt (prompt : Str) : Str × List (Str × Str) :=
  let requests := split_requests prompt
  match requests with
  | [r] =>
    let t := classify_single r
    (t, [(r, t)])
  | rs =>
    let classified := rs.map (fun r => (r, classify_single r))
    let hasCoding := classified.any (fun x => x.2 == CODING_TASK)
    ((if hasCoding then CODING_TASK else QUICK_QUESTION), classified)

/-- `truncate` of classify-prompt.py (the script always uses `max_len=60`). -/
def truncate (text : Str) (maxLen : Nat) : Str :=
  if text.length ≤ maxLen then text else text.take (maxLen - 3) ++ txt "..."

end CC

namespace CC

/-! ## JSON values written to / read from the activity log

The log entries the hooks write only contain strings, booleans, `null`,
non-negative integers and lists of strings, so the value model is that flat
domain; the top-level entry object nests one object (`data`) inside it. -/

inductive JVal where
  | null
  | bool (b : Bool)
  | num (n : Nat)
  | str (s : Str)
  | strList (xs : List Str)
deriving DecidableEq

/-- A JSON object of primitive values (the `data` field of a log entry). -/
abbrev JObj := List (Str × JVal)

/-- Python truthiness of a JSON value (`if data.get(k):`). -/
def truthyV : JVal → Bool
  | .null => false
  | .bool b => b
  | .num n => n ≠ 0
  | .str s => !s.isEmpty
  | .strList xs => !xs.isEmpty

/-- Python truthiness of `dict.get(k)` (missing key gives `None`, falsy). -/
def truthyOpt : Option JVal → Bool
  | none => false
  | some v => truthyV v

def hexChar (d : Nat) : Char := if d < 10 then digitChar d else
  if d = 10 then 'a' else if d = 11 then 'b' else if d = 12 then 'c'
  else if d = 13 then 'd' else if d = 14 then 'e' else 'f'

/-- `json.dumps` escaping of one character inside a string literal. -/
def escChar (c : Char) : Str :=
  if c = '"' then ['\\', '"']
  else if c = '\\' then ['\\', '\\']
  else if c = '\n' then ['\\', 'n']
  else if c = '\r' then ['\\', 'r']
  else if c = '\t' then ['\\', 't']
  else if c.toNat < 32 then ['\\', 'u', '0', '0', hexChar (c.toNat / 16), hexChar (c.toNat % 16)]
  else [c]

/-- `json.dumps` of a string. -/
def dumpsStr (s : Str) : Str := '"' :: (s.map escChar).flatten ++ ['"']

def lbrace : Char := Char.ofNat 123
def rbrace : Char := Char.ofNat 125

/-- `json.dumps` of a primitive value. -/
def dumpsV : JVal → Str
  | .null => txt "null"
  | .bool true => txt "true"
  | .bool false => txt "false"
  | .num n => natChars n
  | .str s => dumpsStr s
  | .strList xs => '[' :: joinSep (txt ", ") (xs.map dumpsStr) ++ [']']

/-- `json.dumps` of a primitive-valued object (default separators). -/
def dumpsObj (o : JObj) : Str :=
  lbrace :: joinSep (txt ", ") (o.map (fun kv => dumpsStr kv.1 ++ txt ": " ++ dumpsV kv.2)) ++ [rbrace]

/-- A value of the top-level log entry object: primitive or one nested object. -/
inductive JEntryVal where
  | prim (v : JVal)
  | nested (o : JObj)

def dumpsEV : JEntryVal → Str
  | .prim v => dumpsV v
  | .nested o => dumpsObj o

/-- `json.dumps` of the top-level log entry object. -/
def dumpsTop (e : List (Str × JEntryVal)) : Str :=
  lbrace :: joinSep (txt ", ") (e.map (fun kv => dumpsStr kv.1 ++ txt ": " ++ dumpsEV kv.2)) ++ [rbrace]

/-! ## Configuration (config.json as read through `.get` chains) -/

structure TestEntry where
  enabled : Option Bool
  command : Option Str
  directory : Option Str
  timeout : Option Nat
deriving DecidableEq

structure LoggingCfg where
  enabled : Option Bool
  logFile : Option Str

structure Config where
  testCommands : List (Str × TestEntry)
  codeExtensions : Option (List Str)
  logging : Option LoggingCfg

/-- `config.get("logging", {}).get("enabled", True)` of activity_logger.py. -/
def loggingEnabled (cfg : Config) : Bool :=
  (cfg.logging.getD ⟨none, none⟩).enabled.getD true

/-! ## activity_logger.py -/

/-- `data or {}` in `log_activity`. -/
def dataOrEmpty : Option JObj → JObj
  | none => []
  | some d => if d.isEmpty then [] else d

/-- The dict literal built by `log_activity` (in key order). -/
def log_entry (now event_type hook_name : Str) (success : Bool) (data : JObj) :
    List (Str × JEntryVal) :=
  [(txt "timestamp", .prim (.str now)),
   (txt "event_type", .prim (.str event_type)),
   (txt "hook", .prim (.str hook_name)),
   (txt "success", .prim (.bool success)),
   (txt "data", .nested data)]

/-- `log_activity` of activity_logger.py, as a transformer of the log file's
contents.  `now` stands for `datetime.now(timezone.utc).isoformat()`; the
no-I/O-error case is modelled (on an I/O error the function leaves the file
as it was and swallows the exception). -/
def log_activity (cfg : Config) (now : Str) (event_type hook_name : Str)
    (data : Option JObj) (success : Bool) (file : Str) : Str :=
  if loggingEnabled cfg = false then file
  else file ++ dumpsTop (log_entry now event_type hook_name success (dataOrEmpty data)) ++ ['\n']

/-- The `data` dict passed by `log_prompt_classification`. -/
def log_prompt_classification_data (prompt_preview classification : Str)
    (is_multi_request : Bool) (request_count coding_count quick_count : Nat) : JObj :=
  [(txt "prompt_preview", .str (prompt_preview.take 100)),
   (txt "classification", .str classification),
   (txt "is_multi_request", .bool is_multi_request),
   (txt "request_count", .num request_count),
   (txt "coding_count", .num coding_count),
   (txt "quick_count", .num quick_count)]

/-! ## Shared plumbing of the two test-gate hooks -/

/-- Result of running one configured command (the oracle for `subprocess.run`). -/
inductive ExecOutcome where
  | completed (returncode : Int) (stdout stderr : Str)
  | timedOut
  | error (msg : Str)

/-- The external world: what executing `command` in `cwd` with `timeout` does. -/
abbrev Runner := Str → Str → Nat → ExecOutcome

/-- `os.path.join(a, b)` (POSIX). -/
def pyJoinPath (a b : Str) : Str :=
  if b.head? = some '/' then b
  else if a.isEmpty || a.getLast? = some '/' then a ++ b
  else a ++ '/' :: b

/-- `run_test_command` (identical in test-gate.py and smart-stop.py). -/
def run_test_command (name : Str) (cfg : TestEntry) (project_dir : Str)
    (runner : Runner) : Bool × Str :=
  if cfg.enabled.getD true = false then (true, [])
  else
    let directory := pyJoinPath project_dir (cfg.directory.getD (txt "."))
    let command := cfg.command.getD (txt "npm test")
    let tmo := cfg.timeout.getD 120
    match runner command directory tmo with
    | .completed rc out err =>
      if rc ≠ 0 then (false, name ++ txt " tests failed:\n" ++ out ++ txt "\n" ++ err)
      else (true, [])
    | .timedOut => (false, name ++ txt " tests timed out after " ++ natChars tmo ++ txt " seconds")
    | .error m => (false, name ++ txt " tests error: " ++ m)

/-- Whether a configured entry's command passes (independent of the display name). -/
def entryPasses (e : TestEntry) (project_dir : Str) (runner : Runner) : Bool :=
  (run_test_command [] e project_dir runner).1

/-! ## test-gate.py (SubagentStop) -/

/-- `test_commands.get(name, {"enabled": False})`. -/
def lookupCmd (cfg : Config) (name : Str) : TestEntry :=
  (cfg.testCommands.lookup name).getD ⟨some false, none, none, none⟩

structure GateResult where
  all_passed : Bool
  backend_passed : Bool
  frontend_passed : Bool
  output : Str
  /-- Instrumentation: the names whose `run_test_command` call was reached. -/
  executed : List Str

/-- `run_tests` of test-gate.py. -/
def runTestsGate (cfg : Config) (project_dir : Str) (runner : Runner) : GateResult :=
  let backend_config := lookupCmd cfg (txt "backend")
  let frontend_config := lookupCmd cfg (txt "frontend")
  let b :=
    if backend_config.enabled.getD false then
      let r := run_test_command (txt "backend") backend_config project_dir runner
      (r.1, if r.1 then ([] : List Str) else [r.2], [txt "backend"])
    else (true, [], [])
  let f :=
    if frontend_config.enabled.getD false then
      let r := run_test_command (txt "frontend") frontend_config project_dir runner
      (r.1, if r.1 then ([] : List Str) else [r.2], [txt "frontend"])
    else (true, [], [])
  { all_passed := b.1 && f.1, backend_passed := b.1, frontend_passed := f.1,
    output := joinSep (txt "\n\n") (b.2.1 ++ f.2.1), executed := b.2.2 ++ f.2.2 }

structure GateMain where
  /-- The reason of the `{"decision": "block", ...}` object printed on stdout, if any. -/
  emitted : Option Str
  exitCode : Nat

/-- `main` of test-gate.py (the stdout JSON decision and the exit status). -/
def testGateMain (cfg : Config) (project_dir : Str) (runner : Runner) : GateMain :=
  let r := runTestsGate cfg project_dir runner
  if r.all_passed then { emitted := none, exitCode := 0 }
  else
    { emitted := some (txt "Tests failed. Please fix the issues before completing:\n\n" ++ r.output),
      exitCode := 0 }

/-! ## smart-stop.py (Stop) -/

/-- `os.path.splitext(p)[1]` (POSIX). -/
def splitextExt (p : Str) : Str :=
  let base := (p.reverse.takeWhile (fun c => c != '/')).reverse
  let revBase := base.reverse
  let afterRev := revBase.takeWhile (fun c => c != '.')
  if afterRev.length = revBase.length then []
  else
    let pre := (revBase.drop (afterRev.length + 1)).reverse
    if pre.any (fun c => c != '.') then '.' :: afterRev.reverse else []

/-- `codeExtensions` with its default. -/
def codeExtsOf (cfg : Config) : List Str :=
  cfg.codeExtensions.getD [txt ".py", txt ".ts", txt ".tsx", txt ".js", txt ".jsx"]

/-- Parse one `git diff --name-only` stdout:
`result.stdout.strip().split('\n') if result.stdout.strip() else []`. -/
def parseGitOut (stdout : Str) : List Str :=
  if (pyStrip stdout).isEmpty then [] else splitNl (pyStrip stdout)

/-- All files named by the two `git diff` runs (unstaged then staged). -/
def reportedFiles (unstagedOut stagedOut : Str) : List Str :=
  parseGitOut unstagedOut ++ parseGitOut stagedOut

/-- `get_code_changes` of smart-stop.py (the no-exception case; on an exception
the function returns `[]`). -/
def get_code_changes (cfg : Config) (unstagedOut stagedOut : Str) : List Str :=
  (reportedFiles unstagedOut stagedOut).filter
    (fun f => (codeExtsOf cfg).contains (splitextExt f))

structure StopTests where
  success : Bool
  output : Str
  /-- Instrumentation: the names whose `run_test_command` call was reached. -/
  executed : List Str

/-- One iteration of the `for name, test_config in test_commands.items()` loop. -/
def stopStep (project_dir : Str) (runner : Runner) (acc : List Str × List Str)
    (it : Str × TestEntry) : List Str × List Str :=
  if it.2.enabled.getD false then
    let r := run_test_command it.1 it.2 project_dir runner
    ((if r.1 then acc.1 else acc.1 ++ [r.2]), acc.2 ++ [it.1])
  else acc

/-- `run_tests` of smart-stop.py. -/
def runTestsSmart (cfg : Config) (project_dir : Str) (runner : Runner) : StopTests :=
  let r := cfg.testCommands.foldl (stopStep project_dir runner) ([], [])
  { success := r.1.isEmpty, output := joinSep (txt "\n\n") r.1, executed := r.2 }

structure StopMain where
  /-- The reason of the `{"decision": "block", ...}` object printed on stdout, if any. -/
  emitted : Option Str
  /-- Did the hook reach `run_tests` at all? -/
  testsRan : Bool
  exitCode : Nat

/-- `main` of smart-stop.py. -/
def smartStopMain (cfg : Config) (project_dir unstagedOut stagedOut : Str)
    (runner : Runner) : StopMain :=
  let changed := get_code_changes cfg unstagedOut stagedOut
  if changed.isEmpty then { emitted := none, testsRan := false, exitCode := 0 }
  else
    let r := runTestsSmart cfg project_dir runner
    if r.success then { emitted := none, testsRan := true, exitCode := 0 }
    else
      { emitted := some (txt "Tests failed. Please fix the issues before stopping:\n\n" ++ r.output),
        testsRan := true, exitCode := 0 }

end CC

namespace CC

/-! ## classify-prompt.py and log-prompt.py `main` -/

/-- What `json.load(sys.stdin)` produced.  `nonDict` covers a successful parse
whose value is not an object, so that `input_data.get` raises and the outer
handler answers (the handler's message text interpolates the exception's
`str`, which is elided here). -/
inductive StdinInput where
  | parseErr (msg : Str)
  | nonDict
  | dict (kvs : JObj)

structure ClassifyOut where
  exitCode : Nat
  output : Str
  /-- The `data` dict handed to `log_prompt_classification`, when reached. -/
  logged : Option JObj

/-- Quote a word between apostrophes (for the context messages). -/
def q (w : String) : Str := apos :: txt w ++ [apos]

def singleCoding : Str :=
  txt "[TASK_TYPE: CODING_TASK] This appears to be a coding task. Consider using the "
    ++ q "coder" ++ txt " subagent for autonomous implementation with test verification."

def singleQuick : Str :=
  txt "[TASK_TYPE: QUICK_QUESTION] This is a quick question or simple task. Answer directly without spawning subagents."

/-- The multi-request context block of classify-prompt.py's `main`. -/
def multiContext (classified : List (Str × Str)) (coding_count quick_count : Nat) : Str :=
  let header := txt "[MULTI_REQUEST: " ++ natChars classified.length ++ txt " tasks detected ("
    ++ natChars coding_count ++ txt " coding, " ++ natChars quick_count ++ txt " quick)]"
  let taskLines := classified.enum.map (fun iq =>
    txt "  " ++ natChars (iq.1 + 1) ++ txt ". ["
      ++ (if iq.2.2 == CODING_TASK then txt "CODING" else txt "QUICK") ++ txt "] "
      ++ truncate iq.2.1 60)
  let guidance :=
    (if coding_count > 1 then
      [txt "- PARALLEL: Launch multiple " ++ q "coder"
        ++ txt " subagents in parallel for independent CODING tasks (use single message with multiple Task tool calls)"]
     else if coding_count = 1 then [txt "- Use " ++ q "coder" ++ txt " subagent for the CODING task"]
     else [])
    ++ (if quick_count > 0 then
      [txt "- Answer QUICK tasks directly (can be done while agents run in background)"] else [])
    ++ (if coding_count > 0 && quick_count > 0 then
      [txt "- Consider running CODING tasks in background (run_in_background=true) while answering QUICK tasks"]
     else [])
  joinSep (txt "\n") ([header, txt "Tasks to handle:"] ++ taskLines
    ++ [[], txt "Execution guidance:"] ++ guidance)

def classifyFallbackJson (m : Str) : Str :=
  txt "[CLASSIFICATION_ERROR: JSON parse failed - " ++ m
    ++ txt "] Use your own judgment to classify and handle this prompt."

def classifyFallbackAttr : Str :=
  txt "[CLASSIFICATION_ERROR: AttributeError] Use your own judgment to classify and handle this prompt."

def classifySkipped : Str := txt "[CLASSIFICATION_SKIPPED: Empty prompt] Use your own judgment."

/-- `main` of classify-prompt.py: the printed context and the exit status. -/
def classifyMain (inp : StdinInput) : ClassifyOut :=
  match inp with
  | .parseErr m => { exitCode := 0, output := classifyFallbackJson m, logged := none }
  | .nonDict => { exitCode := 0, output := classifyFallbackAttr, logged := none }
  | .dict kvs =>
    let promptV := (kvs.lookup (txt "prompt")).getD (.str [])
    if truthyV promptV = false then
      { exitCode := 0, output := classifySkipped, logged := none }
    else
      match promptV with
      | .str prompt =>
        if (pyStrip prompt).isEmpty then
          { exitCode := 0, output := classifySkipped, logged := none }
        else
          let oc := classify_prompt prompt
          let coding_count := (oc.2.filter (fun x => x.2 == CODING_TASK)).length
          let quick_count := oc.2.length - coding_count
          let logged := log_prompt_classification_data (prompt.take 100) oc.1
            (oc.2.length > 1) oc.2.length coding_count quick_count
          let context :=
            match oc.2 with
            | [_] => if oc.1 == CODING_TASK then singleCoding else singleQuick
            | _ => multiContext oc.2 coding_count quick_count
          { exitCode := 0, output := context, logged := some logged }
      | _ =>
        -- prompt is truthy but not a string: `prompt.strip()` raises
        -- AttributeError, caught by the outer handler
        { exitCode := 0, output := classifyFallbackAttr, logged := none }

structure LogPromptOut where
  exitCode : Nat
  /-- The prompt whose `prompt_submitted` entry gets appended, when any. -/
  logged : Option Str

/-- `main` of log-prompt.py. -/
def logPromptMain (inp : StdinInput) : LogPromptOut :=
  match inp with
  | .parseErr _ => { exitCode := 0, logged := none }
  | .nonDict => { exitCode := 0, logged := none }
  | .dict kvs =>
    let promptV := (kvs.lookup (txt "prompt")).getD (.str [])
    if truthyV promptV then
      match promptV with
      | .str p =>
        if (pyStrip p).isEmpty then { exitCode := 0, logged := none }
        else { exitCode := 0, logged := some p }
      | _ => { exitCode := 0, logged := none }
    else { exitCode := 0, logged := none }

/-! ## analyze_activity.py -/

/-- The parsed `datetime.fromisoformat(entry["timestamp"])` together with the
derived strings the analyzer uses (`isoformat()`, `strftime("%Y-%m-%d")`,
`.hour`). -/
structure Ts where
  iso : Str
  day : Str
  hour : Nat

/-- A loaded log entry as `analyze_entries` reads it (`entry["timestamp"]`
must parse; `event_type` and `data` default through `.get`). -/
structure LogEntry where
  ts : Ts
  event_type : Option Str
  data : Option JObj

structure PromptM where
  total : Nat
  coding_tasks : Nat
  quick_questions : Nat
  multi_request : Nat
deriving DecidableEq

structure SubagentM where
  total : Nat
  passed : Nat
  blocked : Nat
  backend_failures : Nat
  frontend_failures : Nat
deriving DecidableEq

structure SessionM where
  total : Nat
  with_code_changes : Nat
  without_code_changes : Nat
  tests_run : Nat
  tests_passed : Nat
  tests_failed : Nat
deriving DecidableEq

structure DayM where
  prompts : Nat
  subagent_stops : Nat
  session_stops : Nat
deriving DecidableEq

structure Metrics where
  total_events : Nat
  dr_start : Option Str
  dr_end : Option Str
  prompts : PromptM
  subagent_stops : SubagentM
  session_stops : SessionM
  by_day : List (Str × DayM)
  by_hour : List (Nat × Nat)

/-- Python string `<` (lexicographic on code points). -/
def strLtB : Str → Str → Bool
  | [], [] => false
  | [], _ :: _ => true
  | _ :: _, [] => false
  | a :: as, b :: bs => if a < b then true else if b < a then false else strLtB as bs

/-- `defaultdict` update for `by_day` (insertion order preserved). -/
def bumpDay (m : List (Str × DayM)) (day : Str) (f : DayM → DayM) : List (Str × DayM) :=
  match m with
  | [] => [(day, f ⟨0, 0, 0⟩)]
  | (k, v) :: rest => if k = day then (k, f v) :: rest else (k, v) :: bumpDay rest day f

/-- `defaultdict(int)` update for `by_hour`. -/
def bumpHour (m : List (Nat × Nat)) (hour : Nat) : List (Nat × Nat) :=
  match m with
  | [] => [(hour, 1)]
  | (k, v) :: rest => if k = hour then (k, v + 1) :: rest else (k, v) :: bumpHour rest hour

/-- The `date_range` update at the top of the entry loop. -/
def updDateRange (m : Metrics) (iso : Str) : Metrics :=
  { m with
    dr_start := match m.dr_start with
      | none => some iso
      | some s => if strLtB iso s then some iso else some s,
    dr_end := match m.dr_end with
      | none => some iso
      | some s => if strLtB s iso then some iso else some s }

/-- The `prompt_classification` block of the entry loop. -/
def promptBranch (m : Metrics) (e : LogEntry) (data : JObj) : Metrics :=
  let m := { m with
    prompts := { m.prompts with total := m.prompts.total + 1 },
    by_day := bumpDay m.by_day e.ts.day (fun d => { d with prompts := d.prompts + 1 }),
    by_hour := bumpHour m.by_hour e.ts.hour }
  let m :=
    if (data.lookup (txt "classification")).getD (.str []) = .str CODING_TASK then
      { m with prompts := { m.prompts with coding_tasks := m.prompts.coding_tasks + 1 } }
    else
      { m with prompts := { m.prompts with quick_questions := m.prompts.quick_questions + 1 } }
  if truthyOpt (data.lookup (txt "is_multi_request")) then
    { m with prompts := { m.prompts with multi_request := m.prompts.multi_request + 1 } }
  else m

/-- The `subagent_test_gate` block of the entry loop. -/
def subagentBranch (m : Metrics) (e : LogEntry) (data : JObj) : Metrics :=
  let m := { m with
    subagent_stops := { m.subagent_stops with total := m.subagent_stops.total + 1 },
    by_day := bumpDay m.by_day e.ts.day
      (fun d => { d with subagent_stops := d.subagent_stops + 1 }) }
  let m := if truthyOpt (data.lookup (txt "tests_passed")) then
    { m with subagent_stops := { m.subagent_stops with passed := m.subagent_stops.passed + 1 } }
    else m
  let m := if truthyOpt (data.lookup (txt "blocked")) then
    { m with subagent_stops := { m.subagent_stops with blocked := m.subagent_stops.blocked + 1 } }
    else m
  let m := if data.lookup (txt "backend_passed") = some (.bool false) then
    { m with subagent_stops :=
        { m.subagent_stops with backend_failures := m.subagent_stops.backend_failures + 1 } }
    else m
  if data.lookup (txt "frontend_passed") = some (.bool false) then
    { m with subagent_stops :=
        { m.subagent_stops with frontend_failures := m.subagent_stops.frontend_failures + 1 } }
  else m

/-- The `session_stop` block of the entry loop. -/
def sessionBranch (m : Metrics) (e : LogEntry) (data : JObj) : Metrics :=
  let m := { m with
    session_stops := { m.session_stops with total := m.session_stops.total + 1 },
    by_day := bumpDay m.by_day e.ts.day
      (fun d => { d with session_stops := d.session_stops + 1 }) }
  let m := if truthyOpt (data.lookup (txt "code_modified")) then
    { m with session_stops :=
        { m.session_stops with with_code_changes := m.session_stops.with_code_changes + 1 } }
    else
    { m with session_stops :=
        { m.session_stops with without_code_changes := m.session_stops.without_code_changes + 1 } }
  if truthyOpt (data.lookup (txt "tests_run")) then
    let m := { m with session_stops :=
      { m.session_stops with tests_run := m.session_stops.tests_run + 1 } }
    if truthyOpt (data.lookup (txt "tests_passed")) then
      { m with session_stops :=
          { m.session_stops with tests_passed := m.session_stops.tests_passed + 1 } }
    else
      { m with session_stops :=
          { m.session_stops with tests_failed := m.session_stops.tests_failed + 1 } }
  else m

/-- One iteration of the `for entry in entries` loop of `analyze_entries`. -/
def analyzeStep (m : Metrics) (e : LogEntry) : Metrics :=
  let m := updDateRange m e.ts.iso
  let et := e.event_type.getD []
  let data := e.data.getD []
  if et = txt "prompt_classification" then promptBranch m e data
  else if et = txt "subagent_test_gate" then subagentBranch m e data
  else if et = txt "session_stop" then sessionBranch m e data
  else m

/-- The initial `metrics` dict of `analyze_entries`. -/
def initMetrics (n : Nat) : Metrics :=
  { total_events := n, dr_start := none, dr_end := none,
    prompts := ⟨0, 0, 0, 0⟩, subagent_stops := ⟨0, 0, 0, 0, 0⟩,
    session_stops := ⟨0, 0, 0, 0, 0, 0⟩, by_day := [], by_hour := [] }

/-- `analyze_entries` of analyze_activity.py. -/
def analyze_entries (entries : List LogEntry) : Metrics :=
  entries.foldl analyzeStep (initMetrics entries.length)

end CC

namespace CC

/-! ## Classification lemmas (claims C3, C4, C8) -/

theorem classifySingle_cases (p : Str) :
    classify_single p = CODING_TASK ∨ classify_single p = QUICK_QUESTION := by
  unfold classify_single
  dsimp only
  split
  · exact Or.inl rfl
  · split
    · exact Or.inr rfl
    · exact Or.inr rfl

/-- The refinement target of claim C8: ignore `QUICK_PATTERNS` entirely and
return `CODING_TASK` exactly when some coding pattern matches the lowercased,
stripped prompt. -/
def classifySingleSpec (prompt : Str) : Str :=
  if CODING_PATTERNS.any (fun p => reSearchB p (pyStrip (pyLower prompt))) then CODING_TASK
  else QUICK_QUESTION

theorem classifySingle_eq_spec (p : Str) : classify_single p = classifySingleSpec p := by
  unfold classify_single classifySingleSpec
  dsimp only
  split
  · rfl
  · split <;> rfl

end CC

namespace CC

theorem classifyPrompt_parts (p : Str) :
    (classify_prompt p).2 = (split_requests p).map (fun r => (r, classify_single r)) := by
  unfold classify_prompt
  dsimp only
  rcases h : split_requests p with _ | ⟨a, _ | ⟨b, t⟩⟩ <;> simp

theorem classifyPrompt_overall (p : Str) :
    (classify_prompt p).1 = CODING_TASK ↔
      ∃ r ∈ split_requests p, classify_single r = CODING_TASK := by
  unfold classify_prompt
  dsimp only
  rcases h : split_requests p with _ | ⟨a, _ | ⟨b, t⟩⟩
  · simp
    decide
  · simp
  · dsimp only
    by_cases hc : ((a :: b :: t).map (fun r => (r, classify_single r))).any
        (fun x => x.2 == CODING_TASK) = true
    · rw [if_pos hc]
      simp only [List.any_eq_true, List.mem_map, beq_iff_eq] at hc
      constructor
      · intro _
        obtain ⟨x, ⟨r, hr, hxeq⟩, hx⟩ := hc
        refine ⟨r, hr, ?_⟩
        rw [← hxeq] at hx
        exact hx
      · intro _
        rfl
    · rw [if_neg hc]
      simp only [List.any_eq_true, List.mem_map, beq_iff_eq] at hc
      constructor
      · intro habs
        exact absurd habs (by decide)
      · rintro ⟨r, hr, hrc⟩
        exact absurd ⟨(r, classify_single r), ⟨r, hr, rfl⟩, hrc⟩ hc

/-- C4: for every prompt, `classify_single` returns exactly one of the two
labels `CODING_TASK` and `QUICK_QUESTION` (it is a total function of the
prompt text, so in particular it raises no exception). -/
theorem claim_C4_classify_single_binary (p : Str) :
    classify_single p = CODING_TASK ∨ classify_single p = QUICK_QUESTION :=
  classifySingle_cases p

/-- C8: `classify_single` is extensionally equal to the function that returns
`CODING_TASK` exactly when some `CODING_PATTERNS` regex matches the
lowercased, stripped request and `QUICK_QUESTION` otherwise; the
`QUICK_PATTERNS` list never influences the label. -/
theorem claim_C8_classify_single_refines (p : Str) :
    classify_single p = classifySingleSpec p :=
  classifySingle_eq_spec p

/-- C3: `classify_prompt` is the composition of request splitting and
per-request classification: its detailed list classifies each element of
`split_requests`, and the overall label is `CODING_TASK` exactly when at
least one split request classifies as `CODING_TASK`, otherwise
`QUICK_QUESTION`. -/
theorem claim_C3_classify_prompt_composition (p : Str) :
    (classify_prompt p).2 = (split_requests p).map (fun r => (r, classify_single r)) ∧
    ((classify_prompt p).1 = CODING_TASK ↔
      ∃ r ∈ split_requests p, classify_single r = CODING_TASK) ∧
    ((classify_prompt p).1 = CODING_TASK ∨ (classify_prompt p).1 = QUICK_QUESTION) := by
  refine ⟨classifyPrompt_parts p, classifyPrompt_overall p, ?_⟩
  unfold classify_prompt
  dsimp only
  rcases h : split_requests p with _ | ⟨a, _ | ⟨b, t⟩⟩
  · right; rfl
  · exact classifySingle_cases a
  · dsimp only
    split
    · left; rfl
    · right; rfl

end CC

namespace CC

/-! ## Analyzer invariants (claim C7) -/

/-- The summary invariants of `analyze_entries` that are preserved per entry. -/
def MetricsInv (m : Metrics) : Prop :=
  m.prompts.coding_tasks + m.prompts.quick_questions = m.prompts.total ∧
  m.session_stops.with_code_changes + m.session_stops.without_code_changes
    = m.session_stops.total ∧
  m.session_stops.tests_passed + m.session_stops.tests_failed = m.session_stops.tests_run

theorem promptBranch_total_events (m : Metrics) (e : LogEntry) (d : JObj) :
    (promptBranch m e d).total_events = m.total_events := by
  unfold promptBranch
  dsimp only
  split_ifs <;> rfl

theorem subagentBranch_total_events (m : Metrics) (e : LogEntry) (d : JObj) :
    (subagentBranch m e d).total_events = m.total_events := by
  unfold subagentBranch
  dsimp only
  split_ifs <;> rfl

theorem sessionBranch_total_events (m : Metrics) (e : LogEntry) (d : JObj) :
    (sessionBranch m e d).total_events = m.total_events := by
  unfold sessionBranch
  dsimp only
  split_ifs <;> rfl

theorem analyzeStep_total_events (m : Metrics) (e : LogEntry) :
    (analyzeStep m e).total_events = m.total_events := by
  unfold analyzeStep
  dsimp only
  split_ifs <;>
    simp only [promptBranch_total_events, subagentBranch_total_events,
      sessionBranch_total_events, updDateRange]

theorem promptBranch_inv (m : Metrics) (e : LogEntry) (d : JObj) (h : MetricsInv m) :
    MetricsInv (promptBranch m e d) := by
  obtain ⟨h1, h2, h3⟩ := h
  unfold promptBranch MetricsInv
  dsimp only
  split_ifs <;> dsimp only <;> omega

theorem subagentBranch_inv (m : Metrics) (e : LogEntry) (d : JObj) (h : MetricsInv m) :
    MetricsInv (subagentBranch m e d) := by
  obtain ⟨h1, h2, h3⟩ := h
  unfold subagentBranch MetricsInv
  dsimp only
  split_ifs <;> dsimp only <;> omega

theorem sessionBranch_inv (m : Metrics) (e : LogEntry) (d : JObj) (h : MetricsInv m) :
    MetricsInv (sessionBranch m e d) := by
  obtain ⟨h1, h2, h3⟩ := h
  unfold sessionBranch MetricsInv
  dsimp only
  split_ifs <;> dsimp only <;> omega

theorem updDateRange_inv (m : Metrics) (iso : Str) (h : MetricsInv m) :
    MetricsInv (updDateRange m iso) := h

theorem analyzeStep_inv (m : Metrics) (e : LogEntry) (h : MetricsInv m) :
    MetricsInv (analyzeStep m e) := by
  unfold analyzeStep
  dsimp only
  split_ifs
  · exact promptBranch_inv _ e _ (updDateRange_inv m e.ts.iso h)
  · exact subagentBranch_inv _ e _ (updDateRange_inv m e.ts.iso h)
  · exact sessionBranch_inv _ e _ (updDateRange_inv m e.ts.iso h)
  · exact updDateRange_inv m e.ts.iso h

theorem foldl_total_events (es : List LogEntry) :
    ∀ m : Metrics, (es.foldl analyzeStep m).total_events = m.total_events := by
  induction es with
  | nil => intro m; rfl
  | cons e es ih =>
    intro m
    simp only [List.foldl_cons]
    rw [ih, analyzeStep_total_events]

theorem foldl_inv (es : List LogEntry) :
    ∀ m : Metrics, MetricsInv m → MetricsInv (es.foldl analyzeStep m) := by
  induction es with
  | nil => intro m h; exact h
  | cons e es ih =>
    intro m h
    exact ih _ (analyzeStep_inv m e h)

/-- C7: for every entry list, `analyze_entries` satisfies the summary
invariants: `total_events` is the number of entries, coding plus quick
prompts equal total prompts, session stops with plus without code changes
equal total session stops, and session tests passed plus failed equal
tests run. -/
theorem claim_C7_analyze_entries_invariants (entries : List LogEntry) :
    (analyze_entries entries).total_events = entries.length ∧
    (analyze_entries entries).prompts.coding_tasks
      + (analyze_entries entries).prompts.quick_questions
      = (analyze_entries entries).prompts.total ∧
    (analyze_entries entries).session_stops.with_code_changes
      + (analyze_entries entries).session_stops.without_code_changes
      = (analyze_entries entries).session_stops.total ∧
    (analyze_entries entries).session_stops.tests_passed
      + (analyze_entries entries).session_stops.tests_failed
      = (analyze_entries entries).session_stops.tests_run := by
  have h := foldl_inv entries (initMetrics entries.length) ⟨rfl, rfl, rfl⟩
  have ht := foldl_total_events entries (initMetrics entries.length)
  exact ⟨ht, h.1, h.2.1, h.2.2⟩

end CC

namespace CC

/-! ## Logger lemmas (claim C6) -/

theorem digitChar_ne_nl (d : Nat) : digitChar d ≠ '\n' := by
  unfold digitChar
  split_ifs <;> decide

theorem hexChar_ne_nl (d : Nat) : hexChar d ≠ '\n' := by
  unfold hexChar digitChar
  split_ifs <;> decide

theorem natDigitsAux_noNl (fuel n : Nat) : '\n' ∉ natDigitsAux fuel n := by
  induction fuel generalizing n with
  | zero => simp [natDigitsAux]
  | succ fuel ih =>
    unfold natDigitsAux
    split_ifs
    · simp only [List.mem_singleton]
      exact fun h => digitChar_ne_nl n h.symm
    · intro h
      rcases List.mem_append.1 h with h | h
      · exact ih _ h
      · simp only [List.mem_singleton] at h
        exact digitChar_ne_nl _ h.symm

theorem natChars_noNl (n : Nat) : '\n' ∉ natChars n := natDigitsAux_noNl _ n

theorem escChar_noNl (c : Char) : '\n' ∉ escChar c := by
  unfold escChar
  split_ifs with h1 h2 h3 h4 h5 h6
  · decide
  · decide
  · decide
  · decide
  · decide
  · intro h
    simp only [List.mem_cons, List.mem_singleton] at h
    rcases h with h | h | h | h | h | h
    · exact absurd h (by decide)
    · exact absurd h (by decide)
    · exact absurd h (by decide)
    · exact absurd h (by decide)
    · exact hexChar_ne_nl _ h.symm
    · rcases h with h | h
      · exact hexChar_ne_nl _ h.symm
      · exact absurd h (by simp)
  · intro h
    simp only [List.mem_singleton] at h
    exact h3 h.symm

theorem dumpsStr_noNl (s : Str) : '\n' ∉ dumpsStr s := by
  unfold dumpsStr
  intro h
  simp only [List.mem_cons, List.mem_append, List.mem_singleton] at h
  rcases h with (h | h) | h
  · exact absurd h (by decide)
  · rcases List.mem_flatten.1 h with ⟨l, hl, hmem⟩
    rcases List.mem_map.1 hl with ⟨c, _, rfl⟩
    exact escChar_noNl c hmem
  · exact absurd h (by decide)

theorem joinSep_noNl (sep : Str) (hsep : '\n' ∉ sep) :
    ∀ pieces : List Str, (∀ p ∈ pieces, '\n' ∉ p) → '\n' ∉ joinSep sep pieces := by
  intro pieces
  induction pieces with
  | nil => intro _; simp [joinSep]
  | cons l ls ih =>
    intro hall
    match ls with
    | [] =>
      exact hall l (List.mem_singleton.2 rfl)
    | l2 :: ls2 =>
      show '\n' ∉ l ++ sep ++ joinSep sep (l2 :: ls2)
      intro h
      rcases List.mem_append.1 h with h | h
      · rcases List.mem_append.1 h with h | h
        · exact hall l (by simp) h
        · exact hsep h
      · exact ih (fun p hp => hall p (List.mem_cons_of_mem _ hp)) h

theorem dumpsV_noNl (v : JVal) : '\n' ∉ dumpsV v := by
  cases v with
  | null => decide
  | bool b => cases b <;> decide
  | num n => exact natChars_noNl n
  | str s => exact dumpsStr_noNl s
  | strList xs =>
    show '\n' ∉ '[' :: joinSep (txt ", ") (xs.map dumpsStr) ++ [']']
    intro h
    simp only [List.mem_cons, List.mem_append, List.mem_singleton] at h
    rcases h with (h | h) | h
    · exact absurd h (by decide)
    · refine joinSep_noNl (txt ", ") (by decide) _ ?_ h
      intro p hp
      rcases List.mem_map.1 hp with ⟨s, _, rfl⟩
      exact dumpsStr_noNl s
    · exact absurd h (by decide)

theorem dumpsObj_noNl (o : JObj) : '\n' ∉ dumpsObj o := by
  unfold dumpsObj
  intro h
  simp only [List.mem_cons, List.mem_append, List.mem_singleton] at h
  rcases h with (h | h) | h
  · exact absurd h (by decide)
  · refine joinSep_noNl (txt ", ") (by decide) _ ?_ h
    intro p hp
    rcases List.mem_map.1 hp with ⟨kv, _, rfl⟩
    intro hmem
    rcases List.mem_append.1 hmem with hm | hm
    · rcases List.mem_append.1 hm with hm | hm
      · exact dumpsStr_noNl kv.1 hm
      · exact absurd hm (by decide)
    · exact dumpsV_noNl kv.2 hm
  · exact absurd h (by decide)

theorem dumpsEV_noNl (v : JEntryVal) : '\n' ∉ dumpsEV v := by
  cases v with
  | prim v => exact dumpsV_noNl v
  | nested o => exact dumpsObj_noNl o

theorem dumpsTop_noNl (e : List (Str × JEntryVal)) : '\n' ∉ dumpsTop e := by
  unfold dumpsTop
  intro h
  simp only [List.mem_cons, List.mem_append, List.mem_singleton] at h
  rcases h with (h | h) | h
  · exact absurd h (by decide)
  · refine joinSep_noNl (txt ", ") (by decide) _ ?_ h
    intro p hp
    rcases List.mem_map.1 hp with ⟨kv, _, rfl⟩
    intro hmem
    rcases List.mem_append.1 hmem with hm | hm
    · rcases List.mem_append.1 hm with hm | hm
      · exact dumpsStr_noNl kv.1 hm
      · exact absurd hm (by decide)
    · exact dumpsEV_noNl kv.2 hm
  · exact absurd h (by decide)

/-- C6: with logging enabled (and no I/O error), `log_activity` appends
exactly one newline-terminated JSON line to the log file — the serialized
object has precisely the fields `timestamp`, `event_type`, `hook`,
`success`, `data` in that order, with `data` defaulting to the empty object
— and the previous contents are kept as an unchanged prefix. -/
theorem claim_C6_log_activity_appends (cfg : Config) (now event_type hook_name : Str)
    (data : Option JObj) (success : Bool) (file : Str)
    (h : loggingEnabled cfg = true) :
    log_activity cfg now event_type hook_name data success file
      = file ++ dumpsTop (log_entry now event_type hook_name success (dataOrEmpty data)) ++ ['\n'] ∧
    '\n' ∉ dumpsTop (log_entry now event_type hook_name success (dataOrEmpty data)) ∧
    (log_entry now event_type hook_name success (dataOrEmpty data)).map Prod.fst
      = [txt "timestamp", txt "event_type", txt "hook", txt "success", txt "data"] ∧
    dataOrEmpty none = [] := by
  refine ⟨?_, dumpsTop_noNl _, rfl, rfl⟩
  unfold log_activity
  rw [h]
  simp

/-- A configuration whose `logging.enabled` is true. -/
def cfgLogOn : Config :=
  { testCommands := [], codeExtensions := none, logging := some ⟨some true, none⟩ }

/-- Witness for C6 at a concrete configuration and call. -/
theorem claim_C6_witness :
    loggingEnabled cfgLogOn = true ∧
    (log_activity cfgLogOn (txt "t0") (txt "session_stop") (txt "Stop") none true (txt "old\n")
      = txt "old\n" ++ dumpsTop (log_entry (txt "t0") (txt "session_stop") (txt "Stop") true
          (dataOrEmpty none)) ++ ['\n'] ∧
     '\n' ∉ dumpsTop (log_entry (txt "t0") (txt "session_stop") (txt "Stop") true (dataOrEmpty none)) ∧
     (log_entry (txt "t0") (txt "session_stop") (txt "Stop") true (dataOrEmpty none)).map Prod.fst
      = [txt "timestamp", txt "event_type", txt "hook", txt "success", txt "data"] ∧
     dataOrEmpty none = []) :=
  ⟨by decide, claim_C6_log_activity_appends cfgLogOn (txt "t0") (txt "session_stop")
    (txt "Stop") none true (txt "old\n") (by decide)⟩

end CC

namespace CC

/-! ## Test gate lemmas (claims C1, C2, C5) -/

theorem run_test_command_fst (name : Str) (e : TestEntry) (pd : Str) (r : Runner) :
    (run_test_command name e pd r).1 = entryPasses e pd r := by
  unfold entryPasses run_test_command
  dsimp only
  split
  · rfl
  · cases hr : r (e.command.getD (txt "npm test"))
        (pyJoinPath pd (e.directory.getD (txt "."))) (e.timeout.getD 120) with
    | completed rc out err =>
      dsimp only
      split <;> rfl
    | timedOut => rfl
    | error msg => rfl

theorem runTestsGate_all_passed (cfg : Config) (pd : Str) (r : Runner) :
    (runTestsGate cfg pd r).all_passed =
      ((!(lookupCmd cfg (txt "backend")).enabled.getD false
          || entryPasses (lookupCmd cfg (txt "backend")) pd r) &&
       (!(lookupCmd cfg (txt "frontend")).enabled.getD false
          || entryPasses (lookupCmd cfg (txt "frontend")) pd r)) := by
  unfold runTestsGate
  dsimp only
  by_cases hb : (lookupCmd cfg (txt "backend")).enabled.getD false
    <;> by_cases hf : (lookupCmd cfg (txt "frontend")).enabled.getD false
    <;> simp [hb, hf, run_test_command_fst]

theorem runTestsGate_executed (cfg : Config) (pd : Str) (r : Runner) :
    (runTestsGate cfg pd r).executed =
      ((if (lookupCmd cfg (txt "backend")).enabled.getD false then [txt "backend"] else []) ++
       (if (lookupCmd cfg (txt "frontend")).enabled.getD false then [txt "frontend"] else [])) := by
  unfold runTestsGate
  dsimp only
  by_cases hb : (lookupCmd cfg (txt "backend")).enabled.getD false
    <;> by_cases hf : (lookupCmd cfg (txt "frontend")).enabled.getD false
    <;> simp [hb, hf]

theorem testGateMain_emitted (cfg : Config) (pd : Str) (r : Runner) :
    (testGateMain cfg pd r).emitted.isSome = !(runTestsGate cfg pd r).all_passed := by
  unfold testGateMain
  dsimp only
  by_cases h : (runTestsGate cfg pd r).all_passed <;> simp [h]

/-- C1 (amended): the SubagentStop gate prints a block decision exactly when
one of the `backend`/`frontend` entries of `testCommands` is enabled and its
command fails; entries under other keys are ignored by this hook. -/
theorem claim_C1_subagent_gate_blocks (cfg : Config) (pd : Str) (runner : Runner) :
    (testGateMain cfg pd runner).emitted.isSome = true ↔
      ((lookupCmd cfg (txt "backend")).enabled.getD false = true ∧
        entryPasses (lookupCmd cfg (txt "backend")) pd runner = false) ∨
      ((lookupCmd cfg (txt "frontend")).enabled.getD false = true ∧
        entryPasses (lookupCmd cfg (txt "frontend")) pd runner = false) := by
  rw [testGateMain_emitted, runTestsGate_all_passed]
  cases hbe : (lookupCmd cfg (txt "backend")).enabled.getD false
    <;> cases hbp : entryPasses (lookupCmd cfg (txt "backend")) pd runner
    <;> cases hfe : (lookupCmd cfg (txt "frontend")).enabled.getD false
    <;> cases hfp : entryPasses (lookupCmd cfg (txt "frontend")) pd runner
    <;> decide

/-- A config whose only test command lives under a key the SubagentStop gate
never consults. -/
def cfgE2E : Config :=
  { testCommands := [(txt "e2e", ⟨some true, none, none, none⟩)],
    codeExtensions := none, logging := none }

/-- A runner under which every command fails (times out). -/
def failRunner : Runner := fun _ _ _ => .timedOut

/-- C1 counterexample to the claim as stated: in `cfgE2E` the (only) enabled
configured test command fails under `failRunner`, yet the SubagentStop gate
emits no block decision. -/
theorem claim_C1_counterexample :
    cfgE2E.testCommands.any
      (fun kv => kv.2.enabled.getD false && !entryPasses kv.2 (txt "/p") failRunner) = true ∧
    (testGateMain cfgE2E (txt "/p") failRunner).emitted = none := by
  decide

/-- Failures accumulated by smart-stop.py's `run_tests` loop. -/
def failuresOf (pd : Str) (r : Runner) : List (Str × TestEntry) → List Str
  | [] => []
  | kv :: rest =>
    (if kv.2.enabled.getD false then
      (if (run_test_command kv.1 kv.2 pd r).1 then []
       else [(run_test_command kv.1 kv.2 pd r).2])
     else []) ++ failuresOf pd r rest

theorem stopFold_spec (pd : Str) (r : Runner) (l : List (Str × TestEntry)) :
    ∀ fs ex : List Str,
      (l.foldl (stopStep pd r) (fs, ex)).1 = fs ++ failuresOf pd r l ∧
      (l.foldl (stopStep pd r) (fs, ex)).2
        = ex ++ (l.filter (fun kv => kv.2.enabled.getD false)).map Prod.fst := by
  induction l with
  | nil => intro fs ex; simp [failuresOf]
  | cons kv rest ih =>
    intro fs ex
    simp only [List.foldl_cons]
    by_cases he : kv.2.enabled.getD false
    · by_cases hp : (run_test_command kv.1 kv.2 pd r).1
      · have hstep : stopStep pd r (fs, ex) kv = (fs, ex ++ [kv.1]) := by
          simp [stopStep, he, hp]
        rw [hstep]
        rcases ih fs (ex ++ [kv.1]) with ⟨ih1, ih2⟩
        refine ⟨?_, ?_⟩
        · rw [ih1]
          simp [failuresOf, he, hp]
        · rw [ih2]
          simp [he]
      · have hstep : stopStep pd r (fs, ex) kv
            = (fs ++ [(run_test_command kv.1 kv.2 pd r).2], ex ++ [kv.1]) := by
          simp [stopStep, he, hp]
        rw [hstep]
        rcases ih (fs ++ [(run_test_command kv.1 kv.2 pd r).2]) (ex ++ [kv.1]) with ⟨ih1, ih2⟩
        refine ⟨?_, ?_⟩
        · rw [ih1]
          simp [failuresOf, he, hp]
        · rw [ih2]
          simp [he]
    · have hstep : stopStep pd r (fs, ex) kv = (fs, ex) := by
        simp [stopStep, he]
      rw [hstep]
      rcases ih fs ex with ⟨ih1, ih2⟩
      refine ⟨?_, ?_⟩
      · rw [ih1]
        simp [failuresOf, he]
      · rw [ih2]
        simp [he]

theorem failuresOf_isEmpty (pd : Str) (r : Runner) (l : List (Str × TestEntry)) :
    (failuresOf pd r l).isEmpty
      = l.all (fun kv => !(kv.2.enabled.getD false) || entryPasses kv.2 pd r) := by
  induction l with
  | nil => rfl
  | cons kv rest ih =>
    unfold failuresOf
    have hrw : entryPasses kv.2 pd r = (run_test_command kv.1 kv.2 pd r).1 :=
      (run_test_command_fst kv.1 kv.2 pd r).symm
    by_cases he : kv.2.enabled.getD false
    · by_cases hp : (run_test_command kv.1 kv.2 pd r).1
      · simp [he, hp, ih, hrw, List.isEmpty_iff]
      · simp [he, hp, ih, hrw, List.isEmpty_iff]
    · simp [he, ih, hrw, List.isEmpty_iff]

theorem runTestsSmart_success (cfg : Config) (pd : Str) (r : Runner) :
    (runTestsSmart cfg pd r).success
      = cfg.testCommands.all (fun kv => !(kv.2.enabled.getD false) || entryPasses kv.2 pd r) := by
  unfold runTestsSmart
  dsimp only
  rw [(stopFold_spec pd r cfg.testCommands [] []).1]
  simp [failuresOf_isEmpty]

theorem runTestsSmart_executed (cfg : Config) (pd : Str) (r : Runner) :
    (runTestsSmart cfg pd r).executed
      = (cfg.testCommands.filter (fun kv => kv.2.enabled.getD false)).map Prod.fst := by
  unfold runTestsSmart
  dsimp only
  rw [(stopFold_spec pd r cfg.testCommands [] []).2]
  simp

/-- C5 (amended): smart-stop's `run_tests` reaches `run_test_command` for
exactly the `testCommands` entries with `enabled` true (in order) and passes
iff every such entry's command passes; test-gate's `run_tests` reaches only
the `backend`/`frontend` entries (each when enabled), and its verdict is the
conjunction of their results. -/
theorem claim_C5_gates_run_enabled_commands (cfg : Config) (pd : Str) (runner : Runner) :
    (runTestsSmart cfg pd runner).executed
      = (cfg.testCommands.filter (fun kv => kv.2.enabled.getD false)).map Prod.fst ∧
    (runTestsSmart cfg pd runner).success
      = cfg.testCommands.all
          (fun kv => !(kv.2.enabled.getD false) || entryPasses kv.2 pd runner) ∧
    (runTestsGate cfg pd runner).executed =
      ((if (lookupCmd cfg (txt "backend")).enabled.getD false then [txt "backend"] else []) ++
       (if (lookupCmd cfg (txt "frontend")).enabled.getD false then [txt "frontend"] else [])) ∧
    (runTestsGate cfg pd runner).all_passed =
      ((!(lookupCmd cfg (txt "backend")).enabled.getD false
          || entryPasses (lookupCmd cfg (txt "backend")) pd runner) &&
       (!(lookupCmd cfg (txt "frontend")).enabled.getD false
          || entryPasses (lookupCmd cfg (txt "frontend")) pd runner)) :=
  ⟨runTestsSmart_executed cfg pd runner, runTestsSmart_success cfg pd runner,
   runTestsGate_executed cfg pd runner, runTestsGate_all_passed cfg pd runner⟩

/-- C5 counterexample to the claim as stated: the enabled `e2e` entry of
`cfgE2E` fails under `failRunner`, yet the SubagentStop gate executes no
command at all and reports success. -/
theorem claim_C5_counterexample :
    cfgE2E.testCommands.any (fun kv => kv.2.enabled.getD false) = true ∧
    (runTestsGate cfgE2E (txt "/p") failRunner).executed = [] ∧
    (runTestsGate cfgE2E (txt "/p") failRunner).all_passed = true ∧
    entryPasses ⟨some true, none, none, none⟩ (txt "/p") failRunner = false := by
  decide

end CC

namespace CC

theorem filter_ne_nil_iff {α : Type} (p : α → Bool) (l : List α) :
    l.filter p ≠ [] ↔ ∃ a ∈ l, p a = true := by
  induction l with
  | nil => simp
  | cons a t ih =>
    by_cases hp : p a
    · simp [List.filter_cons, hp]
    · simp only [List.filter_cons, hp, if_neg, Bool.false_eq_true, not_false_iff, ite_false]
      rw [ih]
      simp [hp]

theorem smart_fail_iff (cfg : Config) (pd : Str) (runner : Runner) :
    (∃ kv ∈ cfg.testCommands, kv.2.enabled.getD false = true ∧
        entryPasses kv.2 pd runner = false) ↔
      (runTestsSmart cfg pd runner).success = false := by
  rw [runTestsSmart_success]
  rw [List.all_eq_false]
  constructor
  · rintro ⟨kv, hkv, he, hp⟩
    exact ⟨kv, hkv, by simp [he, hp]⟩
  · rintro ⟨kv, hkv, h⟩
    have h2 : kv.2.enabled.getD false = true ∧ entryPasses kv.2 pd runner = false := by
      simpa using h
    exact ⟨kv, hkv, h2.1, h2.2⟩

/-- C2: the Stop hook blocks exactly when some file reported by the two
`git diff` runs has a configured code extension and some enabled configured
test command fails; it reaches `run_tests` exactly when a code file changed
(so with no code change it never blocks and runs no test). -/
theorem claim_C2_smart_stop_blocks (cfg : Config) (pd uo so : Str) (runner : Runner) :
    ((smartStopMain cfg pd uo so runner).emitted.isSome = true ↔
      ((∃ f ∈ reportedFiles uo so, (codeExtsOf cfg).contains (splitextExt f) = true) ∧
       ∃ kv ∈ cfg.testCommands, kv.2.enabled.getD false = true ∧
         entryPasses kv.2 pd runner = false)) ∧
    ((smartStopMain cfg pd uo so runner).testsRan = true ↔
      ∃ f ∈ reportedFiles uo so, (codeExtsOf cfg).contains (splitextExt f) = true) := by
  have hexiff : (∃ f ∈ reportedFiles uo so, (codeExtsOf cfg).contains (splitextExt f) = true)
      ↔ get_code_changes cfg uo so ≠ [] := by
    unfold get_code_changes
    exact (filter_ne_nil_iff _ _).symm
  unfold smartStopMain
  dsimp only
  by_cases hch : get_code_changes cfg uo so = []
  · rw [if_pos (by simpa [List.isEmpty_iff] using hch)]
    refine ⟨?_, ?_⟩
    · simp only [Option.isSome_none, Bool.false_eq_true, false_iff]
      rintro ⟨h1, _⟩
      exact (hexiff.1 h1) hch
    · simp only [Bool.false_eq_true, false_iff]
      intro h1
      exact (hexiff.1 h1) hch
  · rw [if_neg (by simpa [List.isEmpty_iff] using hch)]
    by_cases hs : (runTestsSmart cfg pd runner).success
    · rw [if_pos hs]
      refine ⟨?_, ?_⟩
      · simp only [Option.isSome_none, Bool.false_eq_true, false_iff]
        rintro ⟨_, h2⟩
        rw [smart_fail_iff cfg pd runner] at h2
        rw [h2] at hs
        exact absurd hs (by simp)
      · exact iff_of_true rfl (hexiff.2 hch)
    · rw [if_neg hs]
      refine ⟨?_, ?_⟩
      · refine iff_of_true rfl ⟨hexiff.2 hch, ?_⟩
        exact (smart_fail_iff cfg pd runner).2 (Bool.eq_false_iff.2 hs)
      · exact iff_of_true rfl (hexiff.2 hch)

end CC

namespace CC

/-! ## UserPromptSubmit mains (claim C10) -/

theorem take_append_of_le {α : Type} : ∀ (a b : List α) (n : Nat), n ≤ a.length →
    (a ++ b).take n = a.take n := by
  intro a
  induction a with
  | nil =>
    intro b n h
    have : n = 0 := Nat.le_zero.1 h
    simp [this]
  | cons x xs ih =>
    intro b n h
    cases n with
    | zero => simp
    | succ n =>
      simp only [List.cons_append, List.take_succ_cons]
      rw [ih b n (by simpa using h)]

theorem classify_fallback_take (m : Str) :
    (classifyFallbackJson m).take 22 = txt "[CLASSIFICATION_ERROR:" := by
  unfold classifyFallbackJson
  rw [List.append_assoc, take_append_of_le _ _ 22 (by decide)]
  decide

theorem classifyMain_exit (inp : StdinInput) : (classifyMain inp).exitCode = 0 := by
  cases inp with
  | parseErr m => rfl
  | nonDict => rfl
  | dict kvs =>
    unfold classifyMain
    dsimp only
    repeat' split
    all_goals rfl

theorem logPromptMain_exit (inp : StdinInput) : (logPromptMain inp).exitCode = 0 := by
  cases inp with
  | parseErr m => rfl
  | nonDict => rfl
  | dict kvs =>
    unfold logPromptMain
    dsimp only
    repeat' split
    all_goals rfl

/-- C10: the two UserPromptSubmit hooks never fail: whatever stdin parsed to
(malformed JSON, a non-object, a missing, empty, falsy or non-string prompt,
or a real prompt), both entry points exit with status 0, and on a JSON parse
failure classify-prompt prints the `[CLASSIFICATION_ERROR: ...]` fallback
guidance instead of raising. -/
theorem claim_C10_prompt_hooks_never_fail (inp : StdinInput) :
    (classifyMain inp).exitCode = 0 ∧ (logPromptMain inp).exitCode = 0 ∧
    ∀ m : Str, (classifyMain (.parseErr m)).output.take 22 = txt "[CLASSIFICATION_ERROR:" :=
  ⟨classifyMain_exit inp, logPromptMain_exit inp, classify_fallback_take⟩

end CC

namespace CC

/-! ## List lemmas for the splitter proofs -/

theorem lastQ_nil {α : Type} : lastQ ([] : List α) = none := rfl

theorem lastQ_isSome {α : Type} {l : List α} (h : l ≠ []) : ∃ a, lastQ l = some a := by
  unfold lastQ
  cases hrev : l.reverse with
  | nil => exact absurd (List.reverse_eq_nil_iff.1 hrev) h
  | cons a t => exact ⟨a, rfl⟩

theorem lastQ_mem {α : Type} {l : List α} {a : α} (h : lastQ l = some a) : a ∈ l := by
  unfold lastQ at h
  have hmem : a ∈ l.reverse := by
    cases hrev : l.reverse with
    | nil => rw [hrev] at h; exact absurd h (by simp)
    | cons b t =>
      rw [hrev] at h
      simp only [List.head?_cons, Option.some.injEq] at h
      rw [← h]
      exact List.mem_cons_self b t
  exact List.mem_reverse.1 hmem

theorem lastQ_append_right {α : Type} (a : List α) {b : List α} (hb : b ≠ []) :
    lastQ (a ++ b) = lastQ b := by
  unfold lastQ
  rw [List.reverse_append]
  cases hrev : b.reverse with
  | nil => exact absurd (List.reverse_eq_nil_iff.1 hrev) hb
  | cons c t => rfl

theorem lastQ_cons_ne {α : Type} (c : α) {l : List α} (hl : l ≠ []) :
    lastQ (c :: l) = lastQ l := lastQ_append_right [c] hl

theorem lastQ_singleton {α : Type} (c : α) : lastQ [c] = some c := rfl

theorem lastQ_ne_nil {α : Type} {l : List α} {a : α} (h : lastQ l = some a) : l ≠ [] := by
  intro hnil
  rw [hnil] at h
  exact absurd h (by simp [lastQ])

theorem newPrev_nil (prev : Option Char) : newPrev prev [] = prev := rfl

theorem newPrev_append (prev : Option Char) (x y : Str) :
    newPrev prev (x ++ y) = newPrev (newPrev prev x) y := by
  rcases eq_or_ne y [] with rfl | hy
  · rw [List.append_nil, newPrev_nil]
  · unfold newPrev
    rw [lastQ_append_right x hy]
    obtain ⟨a, ha⟩ := lastQ_isSome hy
    rw [ha]

theorem lastQ_drop {α : Type} {l : List α} {n : Nat} (h : l.drop n ≠ []) :
    lastQ (l.drop n) = lastQ l := by
  conv_rhs => rw [← List.take_append_drop n l]
  rw [lastQ_append_right _ h]

end CC

namespace CC

/-! ## Matcher consumption lemmas -/

theorem oOr_eq_some {α : Type} {a b : Option α} {v : α} (h : oOr a b = some v) :
    a = some v ∨ b = some v := by
  cases a with
  | some w => exact Or.inl h
  | none => exact Or.inr h

theorem countClass_le_length (p : Char → Bool) : ∀ s : Str, countClass p s ≤ s.length := by
  intro s
  induction s with
  | nil => simp [countClass]
  | cons c cs ih =>
    unfold countClass
    split
    · simpa using ih
    · simp

theorem take_all_of_le_countClass (p : Char → Bool) :
    ∀ (s : Str) (n : Nat), n ≤ countClass p s → ∀ c ∈ s.take n, p c = true := by
  intro s
  induction s with
  | nil => intro n _ c hc; simp at hc
  | cons a cs ih =>
    intro n hn c hc
    cases n with
    | zero => simp at hc
    | succ n =>
      unfold countClass at hn
      split at hn
      · rename_i hpa
        simp only [List.take_succ_cons, List.mem_cons] at hc
        rcases hc with rfl | hc
        · exact hpa
        · exact ih n (by omega) c hc
      · omega

theorem tryRep_some {α : Type} (prev : Option Char) (s : Str)
    (k : Option Char → Str → Option α) (lo : Nat) :
    ∀ (n : Nat) (v : α), tryRep prev s k lo n = some v →
      ∃ m, lo ≤ m ∧ m ≤ n ∧ k (newPrev prev (s.take m)) (s.drop m) = some v := by
  intro n
  induction n with
  | zero =>
    intro v h
    unfold tryRep at h
    split at h
    · rename_i hlo
      exact ⟨0, by omega, Nat.le_refl 0, by simpa using h⟩
    · exact absurd h (by simp)
  | succ n ih =>
    intro v h
    unfold tryRep at h
    rcases oOr_eq_some h with h1 | h1
    · split at h1
      · exact ⟨n + 1, by assumption, Nat.le_refl _, h1⟩
      · exact absurd h1 (by simp)
    · obtain ⟨m, hm1, hm2, hm3⟩ := ih v h1
      exact ⟨m, hm1, by omega, hm3⟩

theorem matchFirst_some {α : Type} : ∀ (r : RE) (prev : Option Char) (s : Str)
    (k : Option Char → Str → Option α) (v : α), matchFirst r prev s k = some v →
    ∃ n, n ≤ s.length ∧ k (newPrev prev (s.take n)) (s.drop n) = some v := by
  intro r
  induction r with
  | eps =>
    intro prev s k v h
    exact ⟨0, Nat.zero_le _, by simpa [newPrev_nil] using h⟩
  | bos =>
    intro prev s k v h
    unfold matchFirst at h
    split at h
    · exact ⟨0, Nat.zero_le _, by simpa [newPrev_nil] using h⟩
    · exact absurd h (by simp)
  | eos =>
    intro prev s k v h
    unfold matchFirst at h
    split at h
    · exact ⟨0, Nat.zero_le _, by simpa [newPrev_nil] using h⟩
    · exact absurd h (by simp)
  | wordB =>
    intro prev s k v h
    unfold matchFirst at h
    split at h
    · exact ⟨0, Nat.zero_le _, by simpa [newPrev_nil] using h⟩
    · exact absurd h (by simp)
  | cls p =>
    intro prev s k v h
    unfold matchFirst at h
    cases s with
    | nil => exact absurd h (by simp)
    | cons c cs =>
      dsimp only at h
      split at h
      · refine ⟨1, by simp, ?_⟩
        simpa [newPrev, lastQ] using h
      · exact absurd h (by simp)
  | concat a b iha ihb =>
    intro prev s k v h
    unfold matchFirst at h
    obtain ⟨n1, hn1, h1⟩ := iha prev s _ v h
    obtain ⟨n2, hn2, h2⟩ := ihb _ (s.drop n1) k v h1
    refine ⟨n1 + n2, ?_, ?_⟩
    · have := s.length_drop n1
      omega
    · have hd : (s.drop n1).drop n2 = s.drop (n1 + n2) := by
        rw [List.drop_drop]
      have ht : s.take n1 ++ (s.drop n1).take n2 = s.take (n1 + n2) := by
        rw [List.take_add]
      rw [← ht, newPrev_append]
      rw [hd] at h2
      exact h2
  | alt a b iha ihb =>
    intro prev s k v h
    unfold matchFirst at h
    rcases oOr_eq_some h with h1 | h1
    · exact iha prev s k v h1
    · exact ihb prev s k v h1
  | opt a iha =>
    intro prev s k v h
    unfold matchFirst at h
    rcases oOr_eq_some h with h1 | h1
    · exact iha prev s k v h1
    · exact ⟨0, Nat.zero_le _, by simpa [newPrev_nil] using h1⟩
  | clsRep p lo hi =>
    intro prev s k v h
    unfold matchFirst at h
    cases hi with
    | none =>
      dsimp only at h
      split at h
      · obtain ⟨m, _, hm2, hm3⟩ := tryRep_some prev s k lo _ v h
        exact ⟨m, Nat.le_trans hm2 (countClass_le_length p s), hm3⟩
      · exact absurd h (by simp)
    | some hh =>
      dsimp only at h
      split at h
      · obtain ⟨m, _, hm2, hm3⟩ := tryRep_some prev s k lo _ v h
        have hrun := countClass_le_length p s
        have hmin : min (countClass p s) hh ≤ s.length :=
          le_trans (Nat.min_le_left _ _) hrun
        exact ⟨m, by omega, hm3⟩
      · exact absurd h (by simp)

end CC

namespace CC

/-- Any successful match of a pattern of shape `X‍\s+` ends on a whitespace
character and consumes at least one character. -/
theorem matchFirst_tail_ws {α : Type} (x : RE) (prev : Option Char) (s : Str)
    (k : Option Char → Str → Option α) (v : α)
    (h : matchFirst (RE.concat x wsPlus) prev s k = some v) :
    ∃ n c, 1 ≤ n ∧ n ≤ s.length ∧ lastQ (s.take n) = some c ∧ wsB c = true ∧
      k (some c) (s.drop n) = some v := by
  unfold matchFirst at h
  obtain ⟨n1, hn1, h1⟩ := matchFirst_some x prev s _ v h
  unfold wsPlus at h1
  unfold matchFirst at h1
  dsimp only at h1
  split at h1
  · obtain ⟨m, hm1, hm2, hm3⟩ := tryRep_some _ _ k 1 _ v h1
    have hall := take_all_of_le_countClass wsB (s.drop n1) m hm2
    have hmlen : m ≤ (s.drop n1).length := Nat.le_trans hm2 (countClass_le_length _ _)
    have htake_ne : (s.drop n1).take m ≠ [] := by
      cases hds : s.drop n1 with
      | nil =>
        rw [hds] at hmlen
        simp at hmlen
        omega
      | cons a t =>
        cases m with
        | zero => omega
        | succ m => simp [hds]
    obtain ⟨c, hc⟩ := lastQ_isSome htake_ne
    have hcw : wsB c = true := hall c (lastQ_mem hc)
    have hnp : newPrev (newPrev prev (s.take n1)) ((s.drop n1).take m) = some c := by
      unfold newPrev
      rw [hc]
    refine ⟨n1 + m, c, by omega, ?_, ?_, hcw, ?_⟩
    · have := s.length_drop n1
      omega
    · rw [List.take_add, lastQ_append_right _ htake_ne]
      exact hc
    · rw [← List.drop_drop]
      rw [hnp] at hm3
      exact hm3
  · exact absurd h1 (by simp)

theorem matchRem_tail_ws_nil (x : RE) (prev : Option Char) :
    matchRem (RE.concat x wsPlus) prev [] = none := by
  cases h : matchRem (RE.concat x wsPlus) prev [] with
  | none => rfl
  | some pr =>
    unfold matchRem at h
    obtain ⟨n, c, h1, h2, _⟩ := matchFirst_tail_ws x prev [] _ pr h
    simp only [List.length_nil] at h2
    omega

theorem matchRem_keeps_last (x : RE) (prev : Option Char) (s : Str) (p2 : Option Char)
    (rest : Str) (d : Char) (h : matchRem (RE.concat x wsPlus) prev s = some (p2, rest))
    (hd : lastQ s = some d) (hdw : wsB d = false) :
    rest ≠ [] ∧ lastQ rest = some d ∧ rest.length < s.length := by
  unfold matchRem at h
  obtain ⟨n, c, h1, h2, h3, h4, h5⟩ := matchFirst_tail_ws x prev s _ (p2, rest) h
  have hpair : p2 = some c ∧ rest = s.drop n := by
    have h5' : (some c, s.drop n) = (p2, rest) := by
      simpa using h5
    exact ⟨(Prod.mk.injEq _ _ _ _ ▸ h5').1.symm, (Prod.mk.injEq _ _ _ _ ▸ h5').2.symm⟩
  have hrest : rest = s.drop n := hpair.2
  have hne : n ≠ s.length := by
    intro hn
    rw [hn, List.take_length] at h3
    rw [hd] at h3
    have : d = c := by injection h3
    rw [this, h4] at hdw
    exact absurd hdw (by simp)
  have hnlt : n < s.length := by omega
  have hdropne : s.drop n ≠ [] := by
    intro hnil
    have := s.length_drop n
    rw [hnil] at this
    simp at this
    omega
  subst hrest
  refine ⟨hdropne, ?_, ?_⟩
  · rw [lastQ_drop hdropne]
    exact hd
  · rw [s.length_drop]
    omega

end CC

namespace CC

/-- `re.sub(p, '', s, count=1)` with a `X\s+`-shaped pattern keeps the final
non-whitespace character of `s` (so the result is non-empty). -/
theorem subFirstFrom_keeps (x : RE) : ∀ (s : Str) (prev : Option Char) (d : Char),
    lastQ s = some d → wsB d = false →
    subFirstFrom (RE.concat x wsPlus) prev s ≠ [] ∧
      lastQ (subFirstFrom (RE.concat x wsPlus) prev s) = some d := by
  intro s
  induction s with
  | nil =>
    intro prev d hd _
    exact absurd hd (by simp [lastQ])
  | cons c cs ih =>
    intro prev d hd hdw
    unfold subFirstFrom
    cases hm : matchRem (RE.concat x wsPlus) prev (c :: cs) with
    | some pr =>
      obtain ⟨p2, rest⟩ := pr
      have hk := matchRem_keeps_last x prev (c :: cs) p2 rest d hm hd hdw
      exact ⟨hk.1, hk.2.1⟩
    | none =>
      dsimp only
      rcases eq_or_ne cs [] with rfl | hcs
      · have hd' : c = d := by
          have h0 : lastQ [c] = some c := lastQ_singleton c
          rw [hd] at h0
          injection h0 with h0
          exact h0.symm
        have hmn : matchRem (RE.concat x wsPlus) (some c) [] = none :=
          matchRem_tail_ws_nil x (some c)
        unfold subFirstFrom
        rw [hmn]
        subst hd'
        exact ⟨by simp, lastQ_singleton c⟩
      · have hlast : lastQ cs = some d := by
          rw [← lastQ_cons_ne c hcs]
          exact hd
        obtain ⟨h1, h2⟩ := ih (some c) d hlast hdw
        refine ⟨by simp, ?_⟩
        rw [lastQ_cons_ne c h1]
        exact h2

/-- Every explicit delimiter pattern has the shape `X\s+`. -/
theorem explicit_delims_shape :
    ∀ p ∈ EXPLICIT_DELIMITERS, ∃ x, p = RE.concat x wsPlus := by
  intro p hp
  simp only [EXPLICIT_DELIMITERS, mkDelim, List.mem_cons,
    List.not_mem_nil, or_false] at hp
  rcases hp with rfl | rfl | rfl | rfl | rfl | rfl | rfl <;> exact ⟨_, rfl⟩

/-- Both implicit separator patterns have the shape `X\s+`. -/
theorem implicit_seps_shape :
    ∀ p ∈ IMPLICIT_SEPARATORS, ∃ x, p = RE.concat x wsPlus := by
  intro p hp
  simp only [IMPLICIT_SEPARATORS, List.mem_cons, List.not_mem_nil, or_false] at hp
  rcases hp with rfl | rfl <;> exact ⟨_, rfl⟩

/-- Scrubbing all delimiter prefixes keeps the final non-whitespace character. -/
theorem cleanDelims_keeps {s : Str} {d : Char} (hd : lastQ s = some d)
    (hdw : wsB d = false) : cleanDelims s ≠ [] ∧ lastQ (cleanDelims s) = some d := by
  unfold cleanDelims
  have hgen : ∀ (ps : List RE), (∀ p ∈ ps, ∃ x, p = RE.concat x wsPlus) →
      ∀ t, lastQ t = some d →
      (ps.foldl (fun u p => subFirst p u) t) ≠ [] ∧
        lastQ (ps.foldl (fun u p => subFirst p u) t) = some d := by
    intro ps
    induction ps with
    | nil =>
      intro _ t ht
      exact ⟨lastQ_ne_nil ht, ht⟩
    | cons p rest ih =>
      intro hshape t ht
      obtain ⟨x, rfl⟩ := hshape p (List.mem_cons_self p rest)
      simp only [List.foldl_cons]
      have hkeep := subFirstFrom_keeps x t none d ht hdw
      exact ih (fun q hq => hshape q (List.mem_cons_of_mem _ hq)) _ hkeep.2
  exact hgen EXPLICIT_DELIMITERS explicit_delims_shape s hd

end CC

namespace CC

/-! ## pyStrip / splitNl / joinSpace lemmas -/

theorem dropTrail_last : ∀ l : Str, dropTrail l ≠ [] →
    ∃ c, lastQ (dropTrail l) = some c ∧ wsB c = false := by
  intro l
  induction l with
  | nil => intro h; exact absurd rfl h
  | cons c cs ih =>
    intro h
    unfold dropTrail at h ⊢
    dsimp only at h ⊢
    by_cases hr : (dropTrail cs).isEmpty
    · rw [if_pos hr] at h ⊢
      by_cases hw : wsB c
      · rw [if_pos hw] at h
        exact absurd rfl h
      · rw [if_neg hw] at h ⊢
        exact ⟨c, lastQ_singleton c, by simpa using hw⟩
    · rw [if_neg hr] at h ⊢
      have hne : dropTrail cs ≠ [] := by
        intro hnil
        rw [hnil] at hr
        exact hr rfl
      obtain ⟨d, hd1, hd2⟩ := ih hne
      exact ⟨d, by rw [lastQ_cons_ne c hne]; exact hd1, hd2⟩

theorem dropTrail_eq_nil_iff : ∀ l : Str, dropTrail l = [] ↔ ∀ c ∈ l, wsB c = true := by
  intro l
  induction l with
  | nil => simp [dropTrail]
  | cons c cs ih =>
    unfold dropTrail
    dsimp only
    by_cases hr : (dropTrail cs).isEmpty
    · rw [if_pos hr]
      have hcs : ∀ a ∈ cs, wsB a = true := ih.1 (by simpa [List.isEmpty_iff] using hr)
      by_cases hw : wsB c
      · rw [if_pos hw]
        constructor
        · intro _ a ha
          rcases List.mem_cons.1 ha with rfl | ha2
          · exact hw
          · exact hcs a ha2
        · intro _
          rfl
      · simp only [if_neg hw]
        constructor
        · intro habs
          exact absurd habs (by simp)
        · intro hall
          exact absurd (hall c (List.mem_cons_self c cs)) hw
    · rw [if_neg hr]
      have hne : dropTrail cs ≠ [] := fun hnil => hr (by simp [hnil])
      constructor
      · intro habs
        exact absurd habs (by simp)
      · intro hall
        exact absurd (ih.2 fun a ha => hall a (List.mem_cons_of_mem c ha)) hne

theorem pyStrip_last {s : Str} (h : pyStrip s ≠ []) :
    ∃ c, lastQ (pyStrip s) = some c ∧ wsB c = false :=
  dropTrail_last _ h

theorem pyStrip_ne_nil_of_mem {s : Str} {c : Char} (hc : c ∈ s) (hw : wsB c = false) :
    pyStrip s ≠ [] := by
  unfold pyStrip
  intro hnil
  have hmem : c ∈ s.dropWhile wsB := by
    have hsplit := List.takeWhile_append_dropWhile (p := wsB) (l := s)
    rw [← hsplit] at hc
    rcases List.mem_append.1 hc with h1 | h1
    · have := List.mem_takeWhile_imp h1
      rw [this] at hw
      exact absurd hw (by simp)
    · exact h1
  have := (dropTrail_eq_nil_iff _).1 hnil c hmem
  rw [this] at hw
  exact absurd hw (by simp)

theorem splitNl_ne_nil : ∀ s : Str, splitNl s ≠ [] := by
  intro s
  induction s with
  | nil => simp [splitNl]
  | cons c cs ih =>
    unfold splitNl
    dsimp only
    by_cases hc : c = '\n'
    · simp [hc]
    · rw [if_neg hc]
      cases hr : splitNl cs with
      | nil => simp
      | cons p ps => simp

theorem splitNl_last : ∀ (s : Str) (d : Char), lastQ s = some d → d ≠ '\n' →
    ∃ ll, lastQ (splitNl s) = some ll ∧ lastQ ll = some d := by
  intro s
  induction s with
  | nil =>
    intro d hd _
    exact absurd hd (by simp [lastQ])
  | cons c cs ih =>
    intro d hd hdn
    rcases eq_or_ne cs [] with rfl | hcs
    · have hcd : c = d := by
        have h0 : lastQ [c] = some c := lastQ_singleton c
        rw [hd] at h0
        injection h0 with h0
        exact h0.symm
      subst hcd
      unfold splitNl
      dsimp only
      rw [if_neg hdn]
      exact ⟨[c], lastQ_singleton _, lastQ_singleton c⟩
    · have hdcs : lastQ cs = some d := by
        rw [← lastQ_cons_ne c hcs]
        exact hd
      obtain ⟨ll, hll1, hll2⟩ := ih d hdcs hdn
      have hrne : splitNl cs ≠ [] := splitNl_ne_nil cs
      unfold splitNl
      dsimp only
      by_cases hc : c = '\n'
      · rw [if_pos hc]
        exact ⟨ll, by rw [lastQ_cons_ne _ hrne]; exact hll1, hll2⟩
      · rw [if_neg hc]
        cases hr : splitNl cs with
        | nil => exact absurd hr hrne
        | cons p ps =>
          rcases eq_or_ne ps [] with rfl | hps
          · rw [hr] at hll1
            have hpll : p = ll := by
              have := lastQ_singleton p
              rw [hll1] at this
              injection this with h0
              exact h0.symm
            subst hpll
            have hpne : p ≠ [] := lastQ_ne_nil hll2
            exact ⟨c :: p, lastQ_singleton _, by rw [lastQ_cons_ne c hpne]; exact hll2⟩
          · rw [hr] at hll1
            rw [lastQ_cons_ne p hps] at hll1
            exact ⟨ll, by rw [lastQ_cons_ne _ hps]; exact hll1, hll2⟩

theorem joinSpace_last : ∀ (pieces : List Str) (ll : Str), lastQ pieces = some ll →
    ll ≠ [] → lastQ (joinSpace pieces) = lastQ ll := by
  intro pieces
  induction pieces with
  | nil => intro ll h _; exact absurd h (by simp [lastQ])
  | cons l ls ih =>
    intro ll h hll
    cases ls with
    | nil =>
      have : l = ll := by
        have h0 := lastQ_singleton l
        rw [h] at h0
        injection h0 with h0
        exact h0.symm
      subst this
      rfl
    | cons l2 ls2 =>
      have h2 : lastQ (l2 :: ls2) = some ll := by
        rw [← lastQ_cons_ne l (by simp)]
        exact h
      have hrec := ih ll h2 hll
      show lastQ (l ++ [' '] ++ joinSep [' '] (l2 :: ls2)) = lastQ ll
      have hne : joinSep [' '] (l2 :: ls2) ≠ [] := by
        intro hnil
        have hnil2 : joinSpace (l2 :: ls2) = [] := hnil
        rw [hnil2] at hrec
        obtain ⟨a, ha⟩ := lastQ_isSome hll
        rw [ha] at hrec
        exact absurd hrec.symm (by simp [lastQ])
      rw [lastQ_append_right _ hne]
      exact hrec

theorem mem_joinSpace : ∀ (pieces : List Str) (p : Str) (c : Char),
    p ∈ pieces → c ∈ p → c ∈ joinSpace pieces := by
  intro pieces
  induction pieces with
  | nil => intro p c hp _; simp at hp
  | cons l ls ih =>
    intro p c hp hc
    cases ls with
    | nil =>
      have : p = l := by simpa using hp
      subst this
      exact hc
    | cons l2 ls2 =>
      show c ∈ l ++ [' '] ++ joinSep [' '] (l2 :: ls2)
      rcases List.mem_cons.1 hp with rfl | hp2
      · exact List.mem_append.2 (Or.inl (List.mem_append.2 (Or.inl hc)))
      · exact List.mem_append.2 (Or.inr (ih p c hp2 hc))

end CC

namespace CC

/-! ## pySplit lemmas -/

theorem splitGo_ne_nil (r : RE) : ∀ (fuel : Nat) (prev : Option Char) (acc s : Str),
    splitGo r fuel prev acc s ≠ [] := by
  intro fuel
  induction fuel with
  | zero => intro prev acc s; simp [splitGo]
  | succ fuel ih =>
    intro prev acc s
    cases s with
    | nil => simp [splitGo]
    | cons c cs =>
      unfold splitGo
      cases hm : matchRem r prev (c :: cs) with
      | some pr =>
        obtain ⟨p2, rest⟩ := pr
        dsimp only
        split
        · simp
        · exact ih _ _ _
      | none => exact ih _ _ _

/-- The final part produced by `re.split` with a `X\s+`-shaped separator keeps
the final non-whitespace character of the haystack. -/
theorem splitGo_last (x : RE) : ∀ (fuel : Nat) (prev : Option Char) (acc s : Str) (d : Char),
    lastQ (acc.reverse ++ s) = some d → wsB d = false →
    ∃ part, lastQ (splitGo (RE.concat x wsPlus) fuel prev acc s) = some part ∧
      lastQ part = some d := by
  intro fuel
  induction fuel with
  | zero =>
    intro prev acc s d hd _
    exact ⟨acc.reverse ++ s, lastQ_singleton _, hd⟩
  | succ fuel ih =>
    intro prev acc s d hd hdw
    cases s with
    | nil =>
      rw [List.append_nil] at hd
      exact ⟨acc.reverse, lastQ_singleton _, hd⟩
    | cons c cs =>
      unfold splitGo
      cases hm : matchRem (RE.concat x wsPlus) prev (c :: cs) with
      | some pr =>
        obtain ⟨p2, rest⟩ := pr
        dsimp only
        have hdcons : lastQ (c :: cs) = some d := by
          rw [← lastQ_append_right acc.reverse (by simp : (c :: cs : Str) ≠ [])]
          exact hd
        split
        · obtain ⟨hne, hlast, _⟩ :=
            matchRem_keeps_last x prev (c :: cs) p2 rest d hm hdcons hdw
          obtain ⟨part, hp1, hp2⟩ := ih p2 [] rest d (by simpa using hlast) hdw
          refine ⟨part, ?_, hp2⟩
          rw [lastQ_cons_ne _ (splitGo_ne_nil _ _ _ _ _)]
          exact hp1
        · apply ih (some c) (c :: acc) cs d ?_ hdw
          rw [List.reverse_cons, List.append_assoc]
          simpa using hd
      | none =>
        apply ih (some c) (c :: acc) cs d ?_ hdw
        rw [List.reverse_cons, List.append_assoc]
        simpa using hd

theorem pySplit_last (x : RE) (t : Str) (d : Char) (hd : lastQ t = some d)
    (hdw : wsB d = false) :
    ∃ part, lastQ (pySplit (RE.concat x wsPlus) t) = some part ∧ lastQ part = some d := by
  unfold pySplit
  exact splitGo_last x _ none [] t d (by simpa using hd) hdw

theorem tryImplicit_none : ∀ (ps : List RE) (t : Str),
    (∀ p ∈ ps, (pySplit p t).length ≤ 1) → tryImplicit ps t = none := by
  intro ps
  induction ps with
  | nil => intro t _; rfl
  | cons p rest ih =>
    intro t hall
    unfold tryImplicit
    dsimp only
    rw [if_neg (by have := hall p (List.mem_cons_self p rest); omega)]
    exact ih t fun q hq => hall q (List.mem_cons_of_mem p hq)

theorem tryImplicit_some_ne_nil : ∀ (ps : List RE),
    (∀ p ∈ ps, ∃ x, p = RE.concat x wsPlus) →
    ∀ (t : Str) (d : Char) (out : List Str), lastQ t = some d → wsB d = false →
    tryImplicit ps t = some out → out ≠ [] := by
  intro ps
  induction ps with
  | nil =>
    intro _ t d out _ _ h
    exact absurd h (by simp [tryImplicit])
  | cons p rest ih =>
    intro hshape t d out hd hdw h
    unfold tryImplicit at h
    dsimp only at h
    split at h
    · obtain ⟨x, hx⟩ := hshape p (List.mem_cons_self p rest)
      subst hx
      obtain ⟨part, hp1, hp2⟩ := pySplit_last x t d hd hdw
      have hpart_mem : part ∈ pySplit (RE.concat x wsPlus) t := lastQ_mem hp1
      have hstrip_ne : pyStrip part ≠ [] :=
        pyStrip_ne_nil_of_mem (lastQ_mem hp2) hdw
      have hmem_filter : pyStrip part ∈
          ((pySplit (RE.concat x wsPlus) t).map pyStrip).filter (fun u => !u.isEmpty) :=
        List.mem_filter.2 ⟨List.mem_map_of_mem _ hpart_mem,
          by simpa [List.isEmpty_iff] using hstrip_ne⟩
      injection h with h
      rw [h] at hmem_filter
      exact List.ne_nil_of_mem hmem_filter
    · exact ih (fun q hq => hshape q (List.mem_cons_of_mem _ hq)) t d out hd hdw h

end CC

namespace CC

/-! ## split_requests invariants (claim C9) -/

/-- A collected piece contains some non-whitespace character. -/
def PieceOK (p : Str) : Prop := ∃ c, c ∈ p ∧ wsB c = false

/-- Loop invariant of `split_requests`: every flushed request strips to
non-empty, and every pending piece has a non-whitespace character. -/
def StOK (st : SplitState) : Prop :=
  (∀ r ∈ st.requests, pyStrip r ≠ []) ∧ ∀ p ∈ st.current, PieceOK p

theorem pieceOK_pyStrip {s : Str} (h : pyStrip s ≠ []) : PieceOK (pyStrip s) := by
  obtain ⟨c, hc1, hc2⟩ := pyStrip_last h
  exact ⟨c, lastQ_mem hc1, hc2⟩

theorem joinSpace_strip_ne_nil {pieces : List Str} (hne : pieces ≠ [])
    (hok : ∀ p ∈ pieces, PieceOK p) : pyStrip (joinSpace pieces) ≠ [] := by
  obtain ⟨p, hp⟩ := List.exists_mem_of_ne_nil pieces hne
  obtain ⟨c, hc, hcw⟩ := hok p hp
  exact pyStrip_ne_nil_of_mem (mem_joinSpace pieces p c hp hc) hcw

theorem flushCurrent_ok {st : SplitState} (h : StOK st) :
    ∀ r ∈ flushCurrent st, pyStrip r ≠ [] := by
  intro r hr
  unfold flushCurrent at hr
  split at hr
  · exact h.1 r hr
  · rename_i hcur
    rcases List.mem_append.1 hr with h1 | h1
    · exact h.1 r h1
    · have h2 : r = joinSpace st.current := by simpa using h1
      subst h2
      exact joinSpace_strip_ne_nil (by simpa [List.isEmpty_iff] using hcur) h.2

theorem splitStep_ok {st : SplitState} (h : StOK st) (line : Str) :
    StOK (splitStep st line) := by
  unfold splitStep
  dsimp only
  split
  · exact h
  · rename_i hls
    have hlsne : pyStrip line ≠ [] := by simpa [List.isEmpty_iff] using hls
    split
    · refine ⟨flushCurrent_ok h, ?_⟩
      intro p hp
      have hp' : p = pyStrip (cleanDelims (pyStrip line)) := by simpa using hp
      subst hp'
      obtain ⟨d, hd1, hd2⟩ := pyStrip_last hlsne
      obtain ⟨hc1, hc2⟩ := cleanDelims_keeps hd1 hd2
      exact pieceOK_pyStrip (pyStrip_ne_nil_of_mem (lastQ_mem hc2) hd2)
    · refine ⟨h.1, ?_⟩
      intro p hp
      rcases List.mem_append.1 hp with h1 | h1
      · exact h.2 p h1
      · have h2 : p = pyStrip line := by simpa using h1
        subst h2
        exact pieceOK_pyStrip hlsne

theorem foldl_splitStep_ok : ∀ (lines : List Str) (st : SplitState), StOK st →
    StOK (lines.foldl splitStep st) := by
  intro lines
  induction lines with
  | nil => intro st h; exact h
  | cons l ls ih =>
    intro st h
    exact ih _ (splitStep_ok h l)

theorem foldl_splitStep_noDelims : ∀ (lines : List Str),
    (∀ l ∈ lines, isDelimLine (pyStrip l) = false) →
    ∀ st : SplitState, (lines.foldl splitStep st).hasDelims = st.hasDelims := by
  intro lines
  induction lines with
  | nil => intro _ st; rfl
  | cons l ls ih =>
    intro hnd st
    simp only [List.foldl_cons]
    rw [ih (fun q hq => hnd q (List.mem_cons_of_mem _ hq))]
    unfold splitStep
    dsimp only
    split
    · rfl
    · rw [hnd l (List.mem_cons_self _ _)]
      rfl

/-- C9: `split_requests` always returns a non-empty list; and when no line of
the (stripped) prompt starts with an explicit delimiter and no implicit
separator splits the joined text, it returns exactly the singleton
`[prompt.strip()]`. -/
theorem claim_C9_split_requests_nonempty_and_singleton (prompt : Str) :
    split_requests prompt ≠ [] ∧
    ((∀ l ∈ splitNl (pyStrip prompt), isDelimLine (pyStrip l) = false) →
     (∀ p ∈ IMPLICIT_SEPARATORS,
        (pySplit p (joinSpace (splitNl (pyStrip prompt)))).length ≤ 1) →
     split_requests prompt = [pyStrip prompt]) := by
  constructor
  · unfold split_requests
    dsimp only
    have hok : StOK ((splitNl (pyStrip prompt)).foldl splitStep ⟨[], [], false⟩) :=
      foldl_splitStep_ok _ _ ⟨by simp, by simp⟩
    split
    · rename_i hcond
      simp only [Bool.and_eq_true, decide_eq_true_eq] at hcond
      have hall : ∀ r ∈ flushCurrent ((splitNl (pyStrip prompt)).foldl splitStep
          ⟨[], [], false⟩), (!(pyStrip r).isEmpty) = true := by
        intro r hr
        have := flushCurrent_ok hok r hr
        simpa [List.isEmpty_iff] using this
      rw [List.filter_eq_self.2 hall]
      intro hnil
      rw [hnil] at hcond
      simp at hcond
    · cases him : tryImplicit IMPLICIT_SEPARATORS (joinSpace (splitNl (pyStrip prompt))) with
      | none => simp
      | some parts =>
        rcases eq_or_ne (pyStrip prompt) [] with hps | hps
        · rw [hps] at him
          have hnone : tryImplicit IMPLICIT_SEPARATORS (joinSpace (splitNl [])) = none := by
            apply tryImplicit_none
            intro p _
            have hsplit : pySplit p (joinSpace (splitNl ([] : Str))) = [[]] := rfl
            rw [hsplit]
            simp
          rw [hnone] at him
          exact absurd him (by simp)
        · obtain ⟨d, hd1, hd2⟩ := pyStrip_last hps
          have hdn : d ≠ '\n' := by
            intro hcon
            rw [hcon] at hd2
            exact absurd hd2 (by decide)
          obtain ⟨ll, hll1, hll2⟩ := splitNl_last (pyStrip prompt) d hd1 hdn
          have hfull : lastQ (joinSpace (splitNl (pyStrip prompt))) = some d := by
            rw [joinSpace_last _ ll hll1 (lastQ_ne_nil hll2)]
            exact hll2
          have hne := tryImplicit_some_ne_nil IMPLICIT_SEPARATORS implicit_seps_shape
            _ d parts hfull hd2 him
          simpa using hne
  · intro hnd himp
    unfold split_requests
    dsimp only
    rw [foldl_splitStep_noDelims _ hnd ⟨[], [], false⟩]
    simp only [Bool.false_and, Bool.false_eq_true, if_false]
    rw [tryImplicit_none _ _ himp]

end CC

namespace CC

/-- Witness for C9 at a concrete delimiter-free, separator-free prompt. -/
theorem claim_C9_witness :
    split_requests (txt "hello world") ≠ [] ∧
    split_requests (txt "hello world") = [pyStrip (txt "hello world")] :=
  ⟨(claim_C9_split_requests_nonempty_and_singleton (txt "hello world")).1,
   (claim_C9_split_requests_nonempty_and_singleton (txt "hello world")).2
     (by decide) (by decide)⟩

end CC
